import Mathlib

set_option autoImplicit false

/-!
Shallow embedding of `drf_writable_nested/mixins.py` (writable nested
serializer mixins).  Python dictionaries of scalar payload values are
modelled as association lists `List (String × Val)`; the object store
(the relational database reached through the ORM) is modelled as an
explicit `Store` record threaded through every operation.  Each Lean
definition transcribes the Python function named in its doc comment.
-/

namespace DrfWritableNested

/-- A Python scalar value as it occurs in payload dictionaries.
`objv` stands for an opaque non-null structured value (a nested payload)
whose inner structure the extraction code never inspects. -/
inductive Val where
  | null : Val
  | int (n : Int) : Val
  | str (s : String) : Val
  | objv (tag : Nat) : Val
  deriving DecidableEq, Repr

/-- Python truthiness of a `Val` (`None`, `0` and `""` are falsy;
a structured value standing in a payload is a non-empty dict, truthy). -/
def Val.truthy : Val → Bool
  | .null => false
  | .int n => n ≠ 0
  | .str s => s ≠ ""
  | .objv _ => true

/-- Python `str(...)` rendering of a scalar, used because
`_get_related_pk` returns `str(pk)`. -/
def Val.pyStr : Val → String
  | .null => "None"
  | .int n => toString n
  | .str s => s
  | .objv t => "object" ++ toString t

/-- A payload dictionary: association list keyed by field name. -/
abbrev Dict := List (String × Val)

/-- `d.get(k)`: `some v` when the key is present, `none` when absent. -/
def dlookup (d : Dict) (k : String) : Option Val :=
  (d.find? (fun p => p.1 = k)).map (·.2)

/-- Python `d.get(k)` where an absent key yields `None`. -/
def pyGet (d : Dict) (k : String) : Val :=
  (dlookup d k).getD .null

/-- `k in d` membership test on a dictionary. -/
def dmem (d : Dict) (k : String) : Bool :=
  (dlookup d k).isSome

/-- `d[k] = v`: overwrite the key in place, or append it when absent. -/
def dset (d : Dict) (k : String) (v : Val) : Dict :=
  if dmem d k then d.map (fun p => if p.1 = k then (k, v) else p)
  else d ++ [(k, v)]

/-- `d.pop(k)` result dictionary: remove every binding of the key. -/
def dremove (d : Dict) (k : String) : Dict :=
  d.filter (fun p => p.1 ≠ k)

/-- Merge `upd` into `base` as repeated `setattr`/`d[k] = v` calls do:
keys of `upd` override, other keys of `base` survive. -/
def dmerge (base upd : Dict) : Dict :=
  upd.foldl (fun acc p => dset acc p.1 p.2) base

/-- `BaseNestedModelSerializer._get_related_pk`:
`pk = data.get('pk') or data.get(model_class._meta.pk.attname)`;
return `str(pk)` when truthy, else `None`.  `pkAttname` is the model's
primary-key attribute name. -/
def get_related_pk (data : Dict) (pkAttname : String) : Option String :=
  let pk := if (pyGet data "pk").truthy then pyGet data "pk"
            else pyGet data pkAttname
  if pk.truthy then some pk.pyStr else none

/-- `BaseNestedModelSerializer._extract_related_pks`:
walk `filter(None, related_data)` (falsy — that is, empty — dictionaries
are skipped) and collect the truthy related pks as strings. -/
def extract_related_pks (pkAttname : String) (related_data : List Dict) :
    List String :=
  (related_data.filter (fun d => d ≠ [])).foldr
    (fun d acc =>
      match get_related_pk d pkAttname with
      | some pk => pk :: acc
      | none => acc)
    []

/-- Kind of a declared serializer field, folding together the
`isinstance` tests of `_extract_relations`: a `ListSerializer` whose
child is a `ModelSerializer`, a plain `ModelSerializer`, or anything
else. -/
inductive FKind where
  | listModel : FKind
  | model : FKind
  | plain : FKind
  deriving DecidableEq, Repr

/-- A declared serializer field as `_extract_relations` sees it.
`rel` is the outcome of `_get_related_field`: `none` when the model has
no field of that source (`FieldDoesNotExist`), `some direct` otherwise,
where `direct` is false for `ForeignObjectRel` (reverse) fields. -/
structure SField where
  name : String
  source : String
  read_only : Bool
  kind : FKind
  rel : Option Bool
  deriving DecidableEq, Repr

/-- One iteration of the field loop of
`BaseNestedModelSerializer._extract_relations`, transforming the
accumulated (validated data, direct-relation names,
reverse-relation names). -/
def extractStep (acc : Dict × List String × List String) (f : SField) :
    Dict × List String × List String :=
  let (vd, rels, revs) := acc
  if f.read_only then acc
  else
    match f.rel with
    | none => acc
    | some direct =>
      match f.kind with
      | .listModel =>
        if dmem vd f.source then
          (dremove vd f.source, rels, revs ++ [f.name])
        else acc
      | .model =>
        if dmem vd f.source then
          if pyGet vd f.source = .null ∧ direct then acc
          else if direct then
            (dremove vd f.source, rels ++ [f.name], revs)
          else
            (dremove vd f.source, rels, revs ++ [f.name])
        else acc
      | .plain => acc

/-- `BaseNestedModelSerializer._extract_relations`: split the validated
data into (remaining validated data, direct-relation field names,
reverse-relation field names), removing extracted entries in place.
A direct singular relation whose value is explicitly `None` is left in
the validated data and put in neither map. -/
def extract_relations (fields : List SField) (vd : Dict) :
    Dict × List String × List String :=
  fields.foldl extractStep (vd, [], [])

/-! ## The object store

The relational database behind the ORM, as observed through the narrow
interface the mixins use: fetch by pk, create, update in place, delete
with referential-protection signalling, and a many-to-many join table.
-/

/-- A persisted row of the related (child) model.  `parent` is the
foreign-key column pointing at the parent row (`none` when unset),
`prot` marks a row whose deletion the store rejects with
`ProtectedError` because other rows reference it. -/
structure Entity where
  pk : Nat
  attrs : Dict
  parent : Option Nat
  prot : Bool
  deriving DecidableEq, Repr

/-- The store: child-model rows, the many-to-many join table
(parent pk, child pk), and the next auto-assigned primary key. -/
structure Store where
  ents : List Entity
  joins : List (Nat × Nat)
  nextPk : Nat
  deriving DecidableEq, Repr

/-- Cardinality/ownership of a reverse relation as the mixins branch on
it: plain foreign key (many-to-one), reversed one-to-one, or
many-to-many. -/
inductive RelKind where
  | fk : RelKind
  | o2o : RelKind
  | m2m : RelKind
  deriving DecidableEq, Repr

/-- Well-formed store: pairwise distinct primary keys, all of them
positive and below the auto-increment counter. -/
def Store.wf (st : Store) : Prop :=
  st.ents.Pairwise (fun a b => a.pk ≠ b.pk) ∧
  (∀ e ∈ st.ents, 1 ≤ e.pk ∧ e.pk < st.nextPk) ∧
  1 ≤ st.nextPk

/-- Children presently linked to the parent through the relation: join
rows for many-to-many, the foreign-key column otherwise (this is the
`related_field_lookup` filter of `delete_reverse_relations_if_need`). -/
def linkedEnts (kind : RelKind) (st : Store) (ipk : Nat) : List Entity :=
  match kind with
  | .m2m => st.ents.filter (fun e => (ipk, e.pk) ∈ st.joins)
  | _ => st.ents.filter (fun e => e.parent = some ipk)

/-- Whether the child row `cpk` is linked to parent `ipk` under the
relation in the given store. -/
def isLinked (kind : RelKind) (st : Store) (ipk cpk : Nat) : Prop :=
  match kind with
  | .m2m => (∃ e ∈ st.ents, e.pk = cpk) ∧ (ipk, cpk) ∈ st.joins
  | _ => ∃ e ∈ st.ents, e.pk = cpk ∧ e.parent = some ipk

instance (kind : RelKind) (st : Store) (ipk cpk : Nat) :
    Decidable (isLinked kind st ipk cpk) := by
  unfold isLinked; cases kind <;> infer_instance

/-- The raw initial data of one reverse relation: a single dictionary
for a reversed one-to-one field, a list of dictionaries otherwise. -/
inductive RelData where
  | one (d : Dict) : RelData
  | many (ds : List Dict) : RelData
  deriving DecidableEq, Repr

/-- The uniform list view (`related_data = [related_data]` wrapping for
one-to-one). -/
def RelData.asList : RelData → List Dict
  | .one d => [d]
  | .many ds => ds

/-- Context of one reverse relation being processed: its kind, the
child model's primary-key attribute name, and the child serializer's
validation (`is_valid`/`validated_data`), which either produces the
validated attribute dictionary or a `ValidationError` detail. -/
structure RevCtx where
  field_name : String
  kind : RelKind
  pkAttname : String
  valf : Dict → Except Dict Dict

/-- Lines 141-151 of `update_or_create_reverse_relations`: for a
reversed one-to-one relation whose payload carries no primary key under
either the pk attribute name or the `pk` alias, fill in the pk of the
child already linked to the parent (if any) so an update is inferred
instead of a duplicate create. -/
def o2oFillPk (pkAttname : String) (linked : Option Nat) (d : Dict) : Dict :=
  if dmem d pkAttname then d
  else if dmem d "pk" then d
  else
    match linked with
    | some p => dset d pkAttname (.int (Int.ofNat p))
    | none => d

/-- `BaseNestedModelSerializer._prefetch_related_instances`: batch-fetch
the rows whose pk occurs among the payload's declared pks, keyed by
`str(pk)`. -/
def prefetch_related_instances (pkAttname : String) (st : Store)
    (related_data : List Dict) : List (String × Entity) :=
  let pk_list := extract_related_pks pkAttname related_data
  (st.ents.filter (fun e => Nat.repr e.pk ∈ pk_list)).map
    (fun e => (Nat.repr e.pk, e))

/-- `instances.get(key)` on the prefetch dictionary (`key` may be
`None`, in which case the lookup misses). -/
def iget (insts : List (String × Entity)) : Option String → Option Entity
  | none => none
  | some s => (insts.find? (fun p => p.1 = s)).map (·.2)

/-- The updated row produced by the child serializer's update path:
validated attributes override, and `save_kwargs[related_field.name] =
instance` (when present) repoints the foreign key. -/
def updEntity (e : Entity) (attrs : Dict) (parentLink : Option Nat) : Entity :=
  { e with
    attrs := dmerge e.attrs attrs,
    parent := (match parentLink with
               | some p => some p
               | none => e.parent) }

/-- The child serializer's `save(**save_kwargs)`: update the matched row
in place (validated attributes override, the rest survive) or insert a
new row under the next auto key.  `parentLink = some ipk` models
`save_kwargs[related_field.name] = instance`, which (re)points the
child's foreign key at the parent; it is absent for many-to-many. -/
def childSave (st : Store) (obj : Option Entity) (attrs : Dict)
    (parentLink : Option Nat) : Store × Nat :=
  match obj with
  | some e =>
    ({ st with ents := st.ents.map (fun x =>
        if x.pk = e.pk then updEntity e attrs parentLink else x) },
      e.pk)
  | none =>
    ({ st with
        ents := st.ents ++
          [{ pk := st.nextPk, attrs := attrs, parent := parentLink,
             prot := false }],
        nextPk := st.nextPk + 1 },
      st.nextPk)

/-- Lines 165-183: the per-item loop of
`update_or_create_reverse_relations`.  Each payload item is matched
against the prefetch snapshot, validated, and (when valid) persisted,
with the fresh pk written back into the item (`data['pk'] = ...`); an
invalid item contributes its error detail and processing continues with
the next item.  Returns (written-back data, store, saved pks, per-item
errors where `[]` is the empty dict appended on success). -/
def revLoop (ctx : RevCtx) (parentLink : Option Nat)
    (insts : List (String × Entity)) :
    List Dict → Store → List Dict × Store × List Nat × List Dict
  | [], st => ([], st, [], [])
  | d :: rest, st =>
    let obj := iget insts (get_related_pk d ctx.pkAttname)
    match ctx.valf d with
    | .ok attrs =>
      let (st', newPk) := childSave st obj attrs parentLink
      let d' := dset d "pk" (.int (Int.ofNat newPk))
      let (ds, st'', pks, errs) := revLoop ctx parentLink insts rest st'
      (d' :: ds, st'', newPk :: pks, [] :: errs)
    | .error detail =>
      let (ds, st', pks, errs) := revLoop ctx parentLink insts rest st
      (d :: ds, st', pks, detail :: errs)

/-- The relation-level `ValidationError` raised when some child failed:
`{field_name: errors[0]}` for one-to-one, `{field_name: errors}` for a
collection. -/
inductive RevError where
  | single (field : String) (detail : Dict) : RevError
  | list (field : String) (details : List Dict) : RevError
  deriving DecidableEq, Repr

/-- The one-to-one pk fill-in applied to the relation's raw data
(lines 141-153): only a reversed one-to-one single dictionary is
rewritten, everything else passes through. -/
def injectedRelData (ctx : RevCtx) (ipk : Nat) (st : Store) (rd : RelData) :
    RelData :=
  match ctx.kind, rd with
  | .o2o, .one d =>
    RelData.one (o2oFillPk ctx.pkAttname
      ((st.ents.find? (fun (e : Entity) => e.parent = some ipk)).map
        (fun (e : Entity) => e.pk)) d)
  | _, _ => rd

/-- The save keyword argument carrying the parent: absent for
many-to-many, `save_kwargs[related_field.name] = instance` otherwise
(lines 157-163; the generic-relation content-type lookup is not
modelled). -/
def parentLinkOf (kind : RelKind) (ipk : Nat) : Option Nat :=
  match kind with
  | .m2m => none
  | _ => some ipk

/-- The body of `update_or_create_reverse_relations` for one relation
whose initial data is present: one-to-one pk fill-in and wrapping,
prefetch, per-item validate-and-save with error accumulation, then
either the relation-level error or (for many-to-many) the additive
`m2m_manager.add` of all saved children.  Returns the written-back
initial data, the store (successful saves persist even when the
relation errors), and the optional error. -/
def update_or_create_reverse_rel (ctx : RevCtx) (ipk : Nat) (rd : RelData)
    (st : Store) : RelData × Store × Option RevError :=
  let rd1 : RelData := injectedRelData ctx ipk st rd
  let related_data := rd1.asList
  let insts := prefetch_related_instances ctx.pkAttname st related_data
  let (ds', st', newPks, errs) :=
    revLoop ctx (parentLinkOf ctx.kind ipk) insts related_data st
  let rd' := match rd1 with
    | .one _ => RelData.one (ds'.headD [])
    | .many _ => RelData.many ds'
  if errs.any (fun e => e ≠ []) then
    (rd', st',
      some (match ctx.kind with
            | .o2o => RevError.single ctx.field_name (errs.headD [])
            | _ => RevError.list ctx.field_name errs))
  else
    let st'' := match ctx.kind with
      | .m2m =>
        { st' with
          joins := newPks.foldl
            (fun js p => if (ipk, p) ∈ js then js else js ++ [(ipk, p)])
            st'.joins }
      | _ => st'
    (rd', st'', none)

/-- `queryset.filter(pk__in=pks).delete()`: when some targeted row is
protected the store is left unchanged and the protected rows are
reported (`ProtectedError.args[1]`), otherwise the rows are removed. -/
def deleteByPks (st : Store) (pks : List Nat) : Store × Option (List Entity) :=
  let targets := st.ents.filter (fun e => e.pk ∈ pks)
  let protectedOnes := targets.filter (fun e => e.prot)
  if protectedOnes = [] then
    ({ st with ents := st.ents.filter (fun e => e.pk ∉ pks) }, none)
  else (st, some protectedOnes)

/-- `str(instance)` of a child row, as interpolated into the
protected-deletion message (the host framework's `__str__`; rendered
here as the row's pk). -/
def entityStr (e : Entity) : String :=
  Nat.repr e.pk

/-- `NestedUpdateMixin.default_error_messages['cannot_delete_protected']`
formatted with `instances=", ".join(str(i) for i in instances)`. -/
def cannot_delete_protected_msg (insts : List Entity) : String :=
  "Cannot delete " ++ String.intercalate ", " (insts.map entityStr)
    ++ " because protected relation exists"

/-- The body of `delete_reverse_relations_if_need` for one relation
whose initial data is present: recompute the current key set from the
(shared, write-back-mutated) initial data, look up the children linked
to the parent, and remove those whose key is not current — join rows
only for many-to-many, hard deletion otherwise, the latter translating
`ProtectedError` into the user-facing message. -/
def delete_reverse_rel (ctx : RevCtx) (ipk : Nat) (rd : RelData)
    (st : Store) : Store × Option String :=
  let related_data := rd.asList
  let current_ids := extract_related_pks ctx.pkAttname related_data
  let pks_to_delete :=
    ((linkedEnts ctx.kind st ipk).filter
      (fun e => Nat.repr e.pk ∉ current_ids)).map (·.pk)
  match ctx.kind with
  | .m2m =>
    ({ st with
       joins := st.joins.filter
         (fun j => ¬(j.1 = ipk ∧ j.2 ∈ pks_to_delete)) }, none)
  | _ =>
    let (st', protErr) := deleteByPks st pks_to_delete
    (st', protErr.map cannot_delete_protected_msg)

/-- The initial data slot of one relation field: either the field name
is absent from `self.get_initial()` or it holds relation data. -/
inductive InitVal where
  | absent : InitVal
  | data (rd : RelData) : InitVal
  deriving DecidableEq, Repr

/-- The create/update phase with its guard (lines 134-139):
`self.get_initial().get(field_name, None)` — an absent field is
skipped (`continue`), a no-op on the store. -/
def update_or_create_phase (ctx : RevCtx) (ipk : Nat) (iv : InitVal)
    (st : Store) : InitVal × Store × Option RevError :=
  match iv with
  | .absent => (iv, st, none)
  | .data rd =>
    let (rd', st', err) := update_or_create_reverse_rel ctx ipk rd st
    (.data rd', st', err)

/-- Failure of the per-relation update flow. -/
inductive UpdateErr where
  | validation (e : RevError) : UpdateErr
  | keyError : UpdateErr
  | protectedMsg (msg : String) : UpdateErr
  deriving DecidableEq, Repr

/-- The deletion phase for one relation: line 294 reads
`self.get_initial()[field_name]` with no guard, so an absent field
raises `KeyError` instead of being skipped. -/
def delete_phase (ctx : RevCtx) (ipk : Nat) (iv : InitVal) (st : Store) :
    Store × Option UpdateErr :=
  match iv with
  | .absent => (st, some .keyError)
  | .data rd =>
    let (st', msg) := delete_reverse_rel ctx ipk rd st
    (st', msg.map UpdateErr.protectedMsg)

/-- `NestedUpdateMixin.update` restricted to one reverse relation: the
create/update phase runs first and its validation error aborts the
update, otherwise the deletion phase follows on the shared
(write-back-mutated) initial data. -/
def updateRel (ctx : RevCtx) (ipk : Nat) (iv : InitVal) (st : Store) :
    InitVal × Store × Option UpdateErr :=
  let (iv', st', err) := update_or_create_phase ctx ipk iv st
  match err with
  | some e => (iv', st', some (.validation e))
  | none =>
    let (st'', derr) := delete_phase ctx ipk iv' st'
    (iv', st'', derr)

/-! ## Decimal rendering of primary keys

The mixins key the prefetch dictionary and the current-id set by
`str(pk)`.  The facts needed about that rendering are captured here:
`Nat.repr` is injective. -/

/-- Numeric value of a decimal digit character. -/
def digitVal (c : Char) : Nat :=
  c.toNat - '0'.toNat

/-- Value of a big-endian decimal digit string. -/
def charsVal (l : List Char) : Nat :=
  l.foldl (fun a c => 10 * a + digitVal c) 0

/-- Big-endian decimal digits of a natural number (reference
definition used to characterise `Nat.toDigitsCore`). -/
def natDigits (n : Nat) : List Char :=
  if _h : n < 10 then [Nat.digitChar n]
  else natDigits (n / 10) ++ [Nat.digitChar (n % 10)]
decreasing_by exact Nat.div_lt_self (by omega) (by omega)

theorem digitVal_digitChar (d : Nat) (hd : d < 10) :
    digitVal (Nat.digitChar d) = d := by
  interval_cases d <;> decide

theorem charsVal_append (l : List Char) (c : Char) :
    charsVal (l ++ [c]) = 10 * charsVal l + digitVal c := by
  unfold charsVal
  rw [List.foldl_append]
  rfl

theorem charsVal_natDigits (n : Nat) : charsVal (natDigits n) = n := by
  induction n using Nat.strong_induction_on with
  | _ n ih =>
    rw [natDigits]
    split
    · next h =>
      show 10 * 0 + digitVal (Nat.digitChar n) = n
      rw [digitVal_digitChar n h]
      omega
    · next h =>
      rw [charsVal_append, ih (n / 10) (Nat.div_lt_self (by omega) (by omega)),
        digitVal_digitChar (n % 10) (Nat.mod_lt n (by omega))]
      omega

theorem toDigitsCore_eq_natDigits (f : Nat) :
    ∀ (n : Nat) (acc : List Char), 0 < f → n < 10 ^ f →
      Nat.toDigitsCore 10 f n acc = natDigits n ++ acc := by
  induction f with
  | zero => intro n acc h _; omega
  | succ f ih =>
    intro n acc _ hlt
    show (if n / 10 = 0 then Nat.digitChar (n % 10) :: acc
          else Nat.toDigitsCore 10 f (n / 10) (Nat.digitChar (n % 10) :: acc))
        = natDigits n ++ acc
    split
    · next h0 =>
      have hn : n < 10 := by omega
      rw [natDigits, dif_pos hn, Nat.mod_eq_of_lt hn]
      rfl
    · next h0 =>
      have hn : ¬n < 10 := by omega
      have hf : 0 < f := by
        by_contra hf0
        have : f = 0 := by omega
        subst this
        simp [pow_one] at hlt
        omega
      have hdiv : n / 10 < 10 ^ f := by
        rw [Nat.div_lt_iff_lt_mul (by omega)]
        calc n < 10 ^ (f + 1) := hlt
        _ = 10 ^ f * 10 := by rw [pow_succ]
      rw [ih (n / 10) (Nat.digitChar (n % 10) :: acc) hf hdiv]
      conv_rhs => rw [natDigits]
      rw [dif_neg hn, List.append_assoc]
      rfl

theorem toDigits_eq_natDigits (n : Nat) :
    Nat.toDigits 10 n = natDigits n := by
  have hlt : n < 10 ^ (n + 1) := by
    calc n < 10 ^ n := Nat.lt_pow_self (by omega) n
    _ ≤ 10 ^ (n + 1) := Nat.pow_le_pow_right (by omega) (by omega)
  have := toDigitsCore_eq_natDigits (n + 1) n [] (by omega) hlt
  simpa [Nat.toDigits] using this

theorem natRepr_inj {m n : Nat} (h : Nat.repr m = Nat.repr n) : m = n := by
  have hd : natDigits m = natDigits n := by
    have hm := congrArg String.data h
    simpa [Nat.repr, toDigits_eq_natDigits, List.asString] using hm
  calc m = charsVal (natDigits m) := (charsVal_natDigits m).symm
  _ = charsVal (natDigits n) := by rw [hd]
  _ = n := charsVal_natDigits n

/-- The write-back `data['pk'] = related_instance.pk` stores the pk as
an integer; its Python string rendering agrees with the store's
`str(pk)` keys. -/
theorem pyStr_int_ofNat (p : Nat) :
    (Val.int (Int.ofNat p)).pyStr = Nat.repr p := rfl

/-! ## Dictionary lemmas -/

theorem dlookup_cons (p : String × Val) (rest : List (String × Val))
    (s : String) :
    dlookup (p :: rest) s = if p.1 = s then some p.2 else dlookup rest s := by
  by_cases h : p.1 = s
  · simp [dlookup, List.find?_cons_of_pos, h]
  · simp [dlookup, List.find?_cons_of_neg, h]

theorem dremove_cons (p : String × Val) (rest : List (String × Val))
    (k : String) :
    dremove (p :: rest) k
      = if p.1 = k then dremove rest k else p :: dremove rest k := by
  by_cases h : p.1 = k <;> simp [dremove, List.filter_cons, h]

theorem dlookup_dremove_ne (d : Dict) (k s : String) (hks : k ≠ s) :
    dlookup (dremove d k) s = dlookup d s := by
  induction d with
  | nil => rfl
  | cons p rest ih =>
    by_cases hpk : p.1 = k
    · rw [dremove_cons, if_pos hpk, ih, dlookup_cons,
        if_neg (fun hps => hks (hpk.symm.trans hps))]
    · rw [dremove_cons, if_neg hpk, dlookup_cons, dlookup_cons, ih]

theorem dlookup_dremove_self (d : Dict) (k : String) :
    dlookup (dremove d k) k = none := by
  induction d with
  | nil => rfl
  | cons p rest ih =>
    by_cases hpk : p.1 = k
    · rw [dremove_cons, if_pos hpk, ih]
    · rw [dremove_cons, if_neg hpk, dlookup_cons, if_neg hpk, ih]

/-! ## Behaviour of the extraction step -/

theorem extractStep_fst (acc : Dict × List String × List String)
    (f : SField) :
    (extractStep acc f).1 = acc.1 ∨
    (extractStep acc f).1 = dremove acc.1 f.source := by
  obtain ⟨vd, rels, revs⟩ := acc
  unfold extractStep
  rcases f.rel with _ | direct <;> rcases f.kind <;>
    by_cases h : f.read_only <;> simp [h] <;> split_ifs <;> simp

theorem extractStep_rels (acc : Dict × List String × List String)
    (f : SField) :
    (extractStep acc f).2.1 = acc.2.1 ∨
    (extractStep acc f).2.1 = acc.2.1 ++ [f.name] := by
  obtain ⟨vd, rels, revs⟩ := acc
  unfold extractStep
  rcases f.rel with _ | direct <;> rcases f.kind <;>
    by_cases h : f.read_only <;> simp [h] <;> split_ifs <;> simp

theorem extractStep_revs (acc : Dict × List String × List String)
    (f : SField) :
    (extractStep acc f).2.2 = acc.2.2 ∨
    (extractStep acc f).2.2 = acc.2.2 ++ [f.name] := by
  obtain ⟨vd, rels, revs⟩ := acc
  unfold extractStep
  rcases f.rel with _ | direct <;> rcases f.kind <;>
    by_cases h : f.read_only <;> simp [h] <;> split_ifs <;> simp

theorem extractStep_null_direct (acc : Dict × List String × List String)
    (f : SField) (hro : f.read_only = false) (hkind : f.kind = .model)
    (hrel : f.rel = some true)
    (hnull : dlookup acc.1 f.source = some .null) :
    extractStep acc f = acc := by
  obtain ⟨vd, rels, revs⟩ := acc
  simp [extractStep, hro, hrel, hkind, dmem, pyGet, hnull]

theorem extractStep_nonnull_direct (acc : Dict × List String × List String)
    (f : SField) (hro : f.read_only = false) (hkind : f.kind = .model)
    (hrel : f.rel = some true) (v : Val)
    (hv : dlookup acc.1 f.source = some v) (hvn : v ≠ .null) :
    extractStep acc f = (dremove acc.1 f.source, acc.2.1 ++ [f.name], acc.2.2) := by
  obtain ⟨vd, rels, revs⟩ := acc
  simp [extractStep, hro, hrel, hkind, dmem, pyGet, hv, hvn]

/-! ## Behaviour of the extraction fold -/

theorem foldl_extract_lookup (fields : List SField)
    (acc : Dict × List String × List String) (s : String)
    (h : ∀ g ∈ fields, g.source ≠ s) :
    dlookup (fields.foldl extractStep acc).1 s = dlookup acc.1 s := by
  induction fields generalizing acc with
  | nil => rfl
  | cons g rest ih =>
    rw [List.foldl_cons,
      ih (extractStep acc g) (fun x hx => h x (List.mem_cons_of_mem _ hx))]
    rcases extractStep_fst acc g with hc | hc
    · rw [hc]
    · rw [hc, dlookup_dremove_ne _ _ _ (h g (List.mem_cons_self _ _))]

theorem foldl_extract_rels_mem (fields : List SField)
    (acc : Dict × List String × List String) (x : String)
    (hx : x ∈ (fields.foldl extractStep acc).2.1) :
    x ∈ acc.2.1 ∨ ∃ g ∈ fields, x = g.name := by
  induction fields generalizing acc with
  | nil => exact Or.inl hx
  | cons g rest ih =>
    rw [List.foldl_cons] at hx
    rcases ih (extractStep acc g) hx with hmem | ⟨g', hg', hx'⟩
    · rcases extractStep_rels acc g with hc | hc
      · rw [hc] at hmem; exact Or.inl hmem
      · rw [hc] at hmem
        rcases List.mem_append.mp hmem with hmem | hmem
        · exact Or.inl hmem
        · exact Or.inr ⟨g, List.mem_cons_self _ _, List.mem_singleton.mp hmem⟩
    · exact Or.inr ⟨g', List.mem_cons_of_mem _ hg', hx'⟩

theorem foldl_extract_revs_mem (fields : List SField)
    (acc : Dict × List String × List String) (x : String)
    (hx : x ∈ (fields.foldl extractStep acc).2.2) :
    x ∈ acc.2.2 ∨ ∃ g ∈ fields, x = g.name := by
  induction fields generalizing acc with
  | nil => exact Or.inl hx
  | cons g rest ih =>
    rw [List.foldl_cons] at hx
    rcases ih (extractStep acc g) hx with hmem | ⟨g', hg', hx'⟩
    · rcases extractStep_revs acc g with hc | hc
      · rw [hc] at hmem; exact Or.inl hmem
      · rw [hc] at hmem
        rcases List.mem_append.mp hmem with hmem | hmem
        · exact Or.inl hmem
        · exact Or.inr ⟨g, List.mem_cons_self _ _, List.mem_singleton.mp hmem⟩
    · exact Or.inr ⟨g', List.mem_cons_of_mem _ hg', hx'⟩

theorem foldl_extract_rels_sub (fields : List SField)
    (acc : Dict × List String × List String) (x : String)
    (hx : x ∈ acc.2.1) : x ∈ (fields.foldl extractStep acc).2.1 := by
  induction fields generalizing acc with
  | nil => exact hx
  | cons g rest ih =>
    rw [List.foldl_cons]
    refine ih (extractStep acc g) ?_
    rcases extractStep_rels acc g with hc | hc
    · rw [hc]; exact hx
    · rw [hc]; exact List.mem_append.mpr (Or.inl hx)

/-- Claim C7: for every direct singular relation field whose value in
the validated payload is explicitly null, `_extract_relations` leaves
the entry in the validated data and adds the field to neither relations
map; for a non-null value the entry is removed and the field lands in
the direct-relations map (and not in the reverse one). -/
theorem claim_C7 (pre post : List SField) (f : SField) (vd : Dict)
    (hro : f.read_only = false) (hkind : f.kind = .model)
    (hrel : f.rel = some true)
    (hdist : ∀ g ∈ pre ++ post, g.source ≠ f.source ∧ g.name ≠ f.name) :
    (dlookup vd f.source = some .null →
      dlookup (extract_relations (pre ++ f :: post) vd).1 f.source
          = some .null ∧
      f.name ∉ (extract_relations (pre ++ f :: post) vd).2.1 ∧
      f.name ∉ (extract_relations (pre ++ f :: post) vd).2.2) ∧
    (∀ v, dlookup vd f.source = some v → v ≠ .null →
      dlookup (extract_relations (pre ++ f :: post) vd).1 f.source = none ∧
      f.name ∈ (extract_relations (pre ++ f :: post) vd).2.1 ∧
      f.name ∉ (extract_relations (pre ++ f :: post) vd).2.2) := by
  have hpre : ∀ g ∈ pre, g.source ≠ f.source ∧ g.name ≠ f.name :=
    fun g hg => hdist g (List.mem_append.mpr (Or.inl hg))
  have hpost : ∀ g ∈ post, g.source ≠ f.source ∧ g.name ≠ f.name :=
    fun g hg => hdist g (List.mem_append.mpr (Or.inr hg))
  have hsplit : extract_relations (pre ++ f :: post) vd =
      post.foldl extractStep
        (extractStep (pre.foldl extractStep (vd, [], [])) f) := by
    unfold extract_relations
    rw [List.foldl_append, List.foldl_cons]
  set acc1 := pre.foldl extractStep (vd, ([] : List String), ([] : List String))
    with hacc1
  have hlook1 : dlookup acc1.1 f.source = dlookup vd f.source :=
    foldl_extract_lookup pre _ f.source (fun g hg => (hpre g hg).1)
  constructor
  · intro hnull
    have hstep : extractStep acc1 f = acc1 :=
      extractStep_null_direct acc1 f hro hkind hrel (hlook1.trans hnull)
    rw [hsplit, hstep]
    refine ⟨?_, ?_, ?_⟩
    · rw [foldl_extract_lookup post _ f.source (fun g hg => (hpost g hg).1),
        hlook1]
      exact hnull
    · intro hmem
      rcases foldl_extract_rels_mem post acc1 f.name hmem with hmem | ⟨g, hg, hx⟩
      · rcases foldl_extract_rels_mem pre _ f.name hmem with hmem | ⟨g, hg, hx⟩
        · simp at hmem
        · exact (hpre g hg).2 hx.symm
      · exact (hpost g hg).2 hx.symm
    · intro hmem
      rcases foldl_extract_revs_mem post acc1 f.name hmem with hmem | ⟨g, hg, hx⟩
      · rcases foldl_extract_revs_mem pre _ f.name hmem with hmem | ⟨g, hg, hx⟩
        · simp at hmem
        · exact (hpre g hg).2 hx.symm
      · exact (hpost g hg).2 hx.symm
  · intro v hv hvn
    have hstep : extractStep acc1 f =
        (dremove acc1.1 f.source, acc1.2.1 ++ [f.name], acc1.2.2) :=
      extractStep_nonnull_direct acc1 f hro hkind hrel v (hlook1.trans hv) hvn
    rw [hsplit, hstep]
    refine ⟨?_, ?_, ?_⟩
    · rw [foldl_extract_lookup post _ f.source (fun g hg => (hpost g hg).1)]
      exact dlookup_dremove_self _ _
    · exact foldl_extract_rels_sub post _ f.name
        (List.mem_append.mpr (Or.inr (List.mem_singleton.mpr rfl)))
    · intro hmem
      rcases foldl_extract_revs_mem post _ f.name hmem with hmem | ⟨g, hg, hx⟩
      · rcases foldl_extract_revs_mem pre _ f.name hmem with hmem | ⟨g, hg, hx⟩
        · simp at hmem
        · exact (hpre g hg).2 hx.symm
      · exact (hpost g hg).2 hx.symm

/-- Witness for claim C7 at a concrete schema: one direct model field
`child`, payload `{"child": None}` stays untouched, payload
`{"child": "x"}` is extracted into the direct-relations map. -/
theorem claim_C7_witness :
    (dlookup (extract_relations [⟨"child", "child", false, .model, some true⟩]
        [("child", Val.null)]).1 "child" = some Val.null ∧
      "child" ∉ (extract_relations [⟨"child", "child", false, .model, some true⟩]
        [("child", Val.null)]).2.1 ∧
      "child" ∉ (extract_relations [⟨"child", "child", false, .model, some true⟩]
        [("child", Val.null)]).2.2) ∧
    (dlookup (extract_relations [⟨"child", "child", false, .model, some true⟩]
        [("child", Val.str "x")]).1 "child" = none ∧
      "child" ∈ (extract_relations [⟨"child", "child", false, .model, some true⟩]
        [("child", Val.str "x")]).2.1 ∧
      "child" ∉ (extract_relations [⟨"child", "child", false, .model, some true⟩]
        [("child", Val.str "x")]).2.2) := by
  constructor
  · exact (claim_C7 [] [] ⟨"child", "child", false, .model, some true⟩
      [("child", Val.null)] rfl rfl rfl (by intro g hg; simp at hg)).1 (by rfl)
  · exact (claim_C7 [] [] ⟨"child", "child", false, .model, some true⟩
      [("child", Val.str "x")] rfl rfl rfl (by intro g hg; simp at hg)).2
      (Val.str "x") (by rfl) (by decide)

/-- Claim C10: a child payload whose primary-key value is falsy under
both the `pk` alias and the model's pk attribute name yields no key
from `_get_related_pk`: no existing row is fetched for update, its key
is excluded from the deletion phase's keep-set, and the outcome is the
same as if the payload had omitted the key entirely. -/
theorem claim_C10 (d : Dict) (pkAttname : String) (rest : List Dict)
    (insts : List (String × Entity))
    (hpk : (pyGet d "pk").truthy = false)
    (hatt : (pyGet d pkAttname).truthy = false) :
    get_related_pk d pkAttname = none ∧
    iget insts (get_related_pk d pkAttname) = none ∧
    extract_related_pks pkAttname (d :: rest)
      = extract_related_pks pkAttname rest ∧
    get_related_pk (dremove (dremove d "pk") pkAttname) pkAttname = none ∧
    extract_related_pks pkAttname
        (dremove (dremove d "pk") pkAttname :: rest)
      = extract_related_pks pkAttname rest := by
  have h1 : get_related_pk d pkAttname = none := by
    simp [get_related_pk, hpk, hatt]
  have hrm : get_related_pk (dremove (dremove d "pk") pkAttname) pkAttname
      = none := by
    have hpkrm : dlookup (dremove (dremove d "pk") pkAttname) "pk" = none := by
      by_cases heq : pkAttname = "pk"
      · rw [heq, dlookup_dremove_self]
      · rw [dlookup_dremove_ne _ _ _ heq, dlookup_dremove_self]
    have hattrm : dlookup (dremove (dremove d "pk") pkAttname) pkAttname
        = none := dlookup_dremove_self _ _
    simp [get_related_pk, pyGet, hpkrm, hattrm, Val.truthy]
  have hextract : ∀ (d' : Dict), get_related_pk d' pkAttname = none →
      extract_related_pks pkAttname (d' :: rest)
        = extract_related_pks pkAttname rest := by
    intro d' hd'
    by_cases hnil : d' = []
    · simp [extract_related_pks, hnil]
    · simp [extract_related_pks, hnil, hd']
  refine ⟨h1, by rw [h1]; rfl, hextract d h1, hrm, hextract _ hrm⟩

/-- Witness for claim C10: payload `{"pk": 0, "id": ""}` (both falsy)
behaves as keyless. -/
theorem claim_C10_witness :
    get_related_pk [("pk", Val.int 0), ("id", Val.str "")] "id" = none ∧
    iget [] (get_related_pk [("pk", Val.int 0), ("id", Val.str "")] "id")
      = none ∧
    extract_related_pks "id"
        ([("pk", Val.int 0), ("id", Val.str "")] :: [[("pk", Val.int 3)]])
      = extract_related_pks "id" [[("pk", Val.int 3)]] ∧
    get_related_pk
        (dremove (dremove [("pk", Val.int 0), ("id", Val.str "")] "pk") "id")
        "id" = none ∧
    extract_related_pks "id"
        (dremove (dremove [("pk", Val.int 0), ("id", Val.str "")] "pk") "id"
          :: [[("pk", Val.int 3)]])
      = extract_related_pks "id" [[("pk", Val.int 3)]] :=
  claim_C10 [("pk", Val.int 0), ("id", Val.str "")] "id" [[("pk", Val.int 3)]]
    [] (by decide) (by decide)

/-! ## Uniqueness-validator stripping and restoration
(`GetOrCreateNestedSerializerMixin.run_validation` /
`remove_validation_unique` / `restore_validation_unique`) -/

/-- A validator attached to a single field: a `UniqueValidator` or
anything else, tagged to keep instances apart. -/
inductive FieldValidator where
  | unique (id : Nat) : FieldValidator
  | other (id : Nat) : FieldValidator
  deriving DecidableEq, Repr

/-- A serializer-level validator: a `UniqueTogetherValidator` or
anything else. -/
inductive SerValidator where
  | uniqueTogether (id : Nat) : SerValidator
  | otherSer (id : Nat) : SerValidator
  deriving DecidableEq, Repr

def FieldValidator.isUnique : FieldValidator → Bool
  | .unique _ => true
  | .other _ => false

def SerValidator.isUniqueTogether : SerValidator → Bool
  | .uniqueTogether _ => true
  | .otherSer _ => false

/-- The validator lists of a schema: per declared field plus the
serializer-level `self.validators`. -/
structure ValidatorState where
  fields : List (String × List FieldValidator)
  validators : List SerValidator
  deriving DecidableEq, Repr

/-- The mapping returned by `remove_validation_unique`: the removed
per-field `UniqueValidator`s (one entry per declared field, possibly
empty) and the `'_'` entry holding the removed
`UniqueTogetherValidator`s. -/
structure RemovedValidators where
  perField : List (String × List FieldValidator)
  together : List SerValidator
  deriving DecidableEq, Repr

/-- `GetOrCreateNestedSerializerMixin.remove_validation_unique`: strip
every `UniqueValidator` from every field's list and every
`UniqueTogetherValidator` from the serializer's list, returning the
stripped state and the removed validators. -/
def remove_validation_unique (st : ValidatorState) :
    ValidatorState × RemovedValidators :=
  ({ fields := st.fields.map
       (fun p => (p.1, p.2.filter (fun v => ¬v.isUnique))),
     validators := st.validators.filter (fun v => ¬v.isUniqueTogether) },
   { perField := st.fields.map
       (fun p => (p.1, p.2.filter (fun v => v.isUnique))),
     together := st.validators.filter (fun v => v.isUniqueTogether) })

/-- `GetOrCreateNestedSerializerMixin.restore_validation_unique`: the
`'_'` entry is appended back onto `self.validators`; the per-field loop
then evaluates `fields['name']` where `fields` is the `dict_items` view
returned by `self.fields.items()` — subscripting the view raises
`TypeError` the first time the inner loop body runs, i.e. as soon as
any removed per-field validator exists, so no per-field
`UniqueValidator` is ever reattached.  Returns the resulting state and
whether a `TypeError` escaped. -/
def restore_validation_unique (removed : RemovedValidators)
    (st : ValidatorState) : ValidatorState × Bool :=
  let st1 : ValidatorState :=
    { st with validators := st.validators ++ removed.together }
  (st1, removed.perField.any (fun p => p.2 ≠ []))

/-- `GetOrCreateNestedSerializerMixin.run_validation` around a
successful inner validation: strip the uniqueness validators, validate,
restore.  Returns the final validator lists and whether an exception
escaped the restore step. -/
def goc_run_validation (st : ValidatorState) : ValidatorState × Bool :=
  let (stripped, removed) := remove_validation_unique st
  restore_validation_unique removed stripped

/-- Claim C2 (code bug): the claim says every removed `UniqueValidator`
and `UniqueTogetherValidator` is restored after `run_validation`, so
the validator lists are unchanged.  On a schema with a field carrying a
`UniqueValidator`, `restore_validation_unique` subscripts the
`dict_items` view with the literal key `'name'` (line 656), raising
`TypeError`, and the field's validator list stays stripped. -/
theorem claim_C2_code_bug :
    (goc_run_validation
      { fields := [("f", [.unique 0, .other 1])],
        validators := [.uniqueTogether 0] }).2 = true ∧
    (goc_run_validation
      { fields := [("f", [.unique 0, .other 1])],
        validators := [.uniqueTogether 0] }).1.fields
      = [("f", [.other 1])] ∧
    [("f", [FieldValidator.other 1])]
      ≠ [("f", [FieldValidator.unique 0, FieldValidator.other 1])] := by
  decide

/-! ## Re-entrancy guard of `RelatedSaveMixin.save`

A two-node cycle: a parent serializer with a reverse relation to a
child whose own save path re-enters the parent as a direct relation
(the situation the `_is_saved` guard exists for).  `fuel` bounds the
call depth of the untyped Python call graph; the persist counters count
executions of `super().save()`. -/

/-- Saved flags and persistence counters of the parent/child serializer
pair. -/
structure RecState where
  saveParentd : Bool
  saveChildd : Bool
  parentPersists : Nat
  childPersists : Nat
  deriving DecidableEq, Repr

mutual

/-- `RelatedSaveMixin.save` on the parent: guard on `_is_saved`, save
direct relations (none), persist via `super().save()`, set the flag,
then save the reverse relation (the child). -/
def saveParent : Nat → RecState → RecState
  | 0, s => s
  | fuel + 1, s =>
    if s.saveParentd then s
    else
      let s1 := { s with parentPersists := s.parentPersists + 1 }
      let s2 := { s1 with saveParentd := true }
      saveChild fuel s2

/-- `RelatedSaveMixin.save` on the child: guard, save direct relations
(which re-enters the parent's save), persist, set the flag. -/
def saveChild : Nat → RecState → RecState
  | 0, s => s
  | fuel + 1, s =>
    if s.saveChildd then s
    else
      let s1 := saveParent fuel s
      let s2 := { s1 with childPersists := s1.childPersists + 1 }
      { s2 with saveChildd := true }

end

theorem saveParent_saved (fuel : Nat) (s : RecState)
    (h : s.saveParentd = true) : saveParent fuel s = s := by
  cases fuel <;> simp [saveParent, h]

theorem saveChild_saved (fuel : Nat) (s : RecState)
    (h : s.saveChildd = true) : saveChild fuel s = s := by
  cases fuel <;> simp [saveChild, h]

/-- Claim C6: once `save` has persisted and set the saved flag, every
further `save` on the same serializer instance is a no-op; in the
mutually recursive scenario where the reverse relation's save path
re-enters the parent, each side persists exactly once. -/
theorem claim_C6 :
    (∀ (fuel : Nat) (s : RecState), s.saveParentd = true →
      saveParent fuel s = s) ∧
    (∀ (fuel : Nat) (s : RecState), s.saveChildd = true →
      saveChild fuel s = s) ∧
    (∀ (fuel p c : Nat), saveParent (fuel + 2) ⟨false, false, p, c⟩
      = ⟨true, true, p + 1, c + 1⟩) := by
  refine ⟨saveParent_saved, saveChild_saved, ?_⟩
  intro fuel p c
  show saveParent (fuel + 1 + 1) ⟨false, false, p, c⟩ = _
  rw [saveParent]
  simp only [if_neg (by simp : ¬(false = true))]
  rw [saveChild]
  simp only [if_neg (by simp : ¬(false = true))]
  rw [saveParent_saved fuel _ rfl]

/-- Witness for claim C6: a saved parent is untouched by a new `save`,
a saved child likewise, and the fresh two-node recursion persists each
side exactly once. -/
theorem claim_C6_witness :
    saveParent 5 ⟨true, false, 3, 0⟩ = ⟨true, false, 3, 0⟩ ∧
    saveChild 5 ⟨false, true, 0, 2⟩ = ⟨false, true, 0, 2⟩ ∧
    saveParent 2 ⟨false, false, 0, 0⟩ = ⟨true, true, 1, 1⟩ :=
  ⟨claim_C6.1 5 _ rfl, claim_C6.2.1 5 _ rfl, claim_C6.2.2 0 0 0⟩

/-! ## `GetOrCreateNestedSerializerMixin.save` (lines 658-687)

The matcher: build a lookup filter from the match-on key set, update
the single matching row in place or construct a fresh instance, then
persist.  Modelled for a flat schema (no nested serializer fields), on
which `_extract_reverse_relations` and `_save_direct_relations` are
no-ops; the `'__all__'` form of `match_on` and the `TypeError` branch
for non-dict validated data are outside this model. -/

/-- A declared field of the get-or-create schema, with its optional
explicit source. -/
structure GField where
  name : String
  source : Option String
  deriving DecidableEq, Repr

/-- `field.source or field_name` (an empty source string is falsy). -/
def srcOrName (f : GField) : String :=
  match f.source with
  | some s => if s = "" then f.name else s
  | none => f.name

/-- Lines 669-676: build the `match_on` filter.  Every declared field
named in `match_on` contributes `(source or name) ↦
validated_data.get(name)`; afterwards every `match_on` key that is not
a declared field contributes `key ↦ validated_data.get(key)` (a parent
serializer may inject such a value). -/
def buildMatchOn (fields : List GField) (matchOn : List String) (vd : Dict) :
    Dict :=
  matchOn.foldl
    (fun m key =>
      if fields.all (fun f => f.name ≠ key) then dset m key (pyGet vd key)
      else m)
    (fields.foldl
      (fun m f =>
        if f.name ∈ matchOn then dset m (srcOrName f) (pyGet vd f.name)
        else m)
      [])

/-- `getattr(row, k)` as the ORM filter evaluates it: the primary key
under the special alias `pk`, otherwise the attribute entry. -/
def rowVal (e : Entity) (k : String) : Val :=
  if k = "pk" then Val.int (Int.ofNat e.pk) else pyGet e.attrs k

/-- Whether a row satisfies every pair of the lookup filter. -/
def matchesFilt (filt : Dict) (e : Entity) : Bool :=
  filt.all (fun p => rowVal e p.1 = p.2)

/-- Rows of the store satisfying the filter (the queryset is the whole
table, the mixin's default). -/
def matchingRows (st : Store) (filt : Dict) : List Entity :=
  st.ents.filter (matchesFilt filt)

/-- Outcome of `queryset.get(**match_on)`. -/
inductive GetResult where
  | found (e : Entity) : GetResult
  | doesNotExist : GetResult
  | multiple : GetResult
  deriving DecidableEq, Repr

def qsGet (st : Store) (filt : Dict) : GetResult :=
  match matchingRows st filt with
  | [] => .doesNotExist
  | [e] => .found e
  | _ :: _ :: _ => .multiple

/-- `for k, v in self._validated_data.items(): setattr(match, k, v)`:
an assignment to the `pk` alias moves the row's primary key (the ORM
coerces an integer value; other shapes are left to the field coercion
outside this model), any other key writes the attribute. -/
def applyAttrs (e : Entity) (vd : Dict) : Entity :=
  vd.foldl
    (fun e p =>
      if p.1 = "pk" then
        match p.2 with
        | .int (.ofNat n) => { e with pk := n }
        | _ => e
      else { e with attrs := dset e.attrs p.1 p.2 })
    e

/-- `match = self.queryset.model(**self._validated_data)` followed by
`match.save()` for a fresh instance: the row carries the explicit
integer pk from the data when one is given (`save` then updates a row
of that pk if present, inserting otherwise), else it gets the next auto
key. -/
def modelSaveNew (st : Store) (vd : Dict) : Store × Entity :=
  match dlookup vd "pk" with
  | some (.int (.ofNat n)) =>
    let e : Entity := { pk := n, attrs := vd, parent := none, prot := false }
    (if st.ents.any (fun x => x.pk = n) then
      { st with ents := st.ents.map (fun x => if x.pk = n then e else x) }
     else
      { st with ents := st.ents ++ [e], nextPk := max st.nextPk (n + 1) }, e)
  | _ =>
    let e : Entity :=
      { pk := st.nextPk, attrs := vd, parent := none, prot := false }
    ({ st with ents := st.ents ++ [e], nextPk := st.nextPk + 1 }, e)

/-- `match.save()` on a row obtained from the store and mutated by
`setattr`: update the row of that pk in place, inserting if the pk
moved to an unoccupied one. -/
def modelSaveExisting (st : Store) (e : Entity) : Store × Entity :=
  if st.ents.any (fun x => x.pk = e.pk) then
    ({ st with ents := st.ents.map (fun x => if x.pk = e.pk then e else x) },
      e)
  else
    ({ st with ents := st.ents ++ [e], nextPk := max st.nextPk (e.pk + 1) }, e)

/-- Outcome of `GetOrCreateNestedSerializerMixin.save`: the persisted
instance, or the uncaught `MultipleObjectsReturned` of
`queryset.get`. -/
inductive GocResult where
  | saved (e : Entity) : GocResult
  | multipleError : GocResult
  deriving DecidableEq, Repr

/-- Lines 658-687 for a flat schema: merge the save kwargs into the
validated data, look up by the match filter, update the single match in
place or construct a fresh instance, persist it. -/
def goc_save (fields : List GField) (matchOn : List String) (vd kwargs : Dict)
    (st : Store) : Store × GocResult :=
  match qsGet st (buildMatchOn fields matchOn (dmerge vd kwargs)) with
  | .found e =>
    ((modelSaveExisting st (applyAttrs e (dmerge vd kwargs))).1,
      .saved (modelSaveExisting st (applyAttrs e (dmerge vd kwargs))).2)
  | .doesNotExist =>
    ((modelSaveNew st (dmerge vd kwargs)).1,
      .saved (modelSaveNew st (dmerge vd kwargs)).2)
  | .multiple => (st, .multipleError)

/-! ## Generic fold and map lemmas -/

theorem foldl_step_fixed {α β : Type _} (step : α → β → α) (a : α)
    (l : List β) (h : ∀ b ∈ l, step a b = a) : l.foldl step a = a := by
  induction l with
  | nil => rfl
  | cons b rest ih =>
    rw [List.foldl_cons, h b (List.mem_cons_self _ _)]
    exact ih (fun x hx => h x (List.mem_cons_of_mem _ hx))

theorem foldl_preserve {α β : Type _} (P : α → Prop) (step : α → β → α)
    (l : List β) (a : α) (ha : P a)
    (h : ∀ (x : α) (b : β), b ∈ l → P x → P (step x b)) :
    P (l.foldl step a) := by
  induction l generalizing a with
  | nil => exact ha
  | cons b rest ih =>
    rw [List.foldl_cons]
    exact ih (step a b) (h a b (List.mem_cons_self _ _) ha)
      (fun x c hc hx => h x c (List.mem_cons_of_mem _ hc) hx)

theorem map_id_of_eq {α : Type _} (l : List α) (f : α → α)
    (h : ∀ x ∈ l, f x = x) : l.map f = l := by
  induction l with
  | nil => rfl
  | cons x rest ih =>
    rw [List.map_cons, h x (List.mem_cons_self _ _)]
    rw [ih (fun y hy => h y (List.mem_cons_of_mem _ hy))]

/-! ## Dictionary lemmas for the matcher -/

theorem mem_dset (d : Dict) (k : String) (v : Val) (p : String × Val)
    (hp : p ∈ dset d k v) : p = (k, v) ∨ (p ∈ d ∧ p.1 ≠ k) := by
  unfold dset at hp
  split at hp
  · rcases List.mem_map.mp hp with ⟨q, hq, hmap⟩
    by_cases hqk : q.1 = k
    · rw [if_pos hqk] at hmap
      exact Or.inl hmap.symm
    · rw [if_neg hqk] at hmap
      exact Or.inr ⟨hmap ▸ hq, hmap ▸ hqk⟩
  · next hnm =>
    rcases List.mem_append.mp hp with hin | hin
    · refine Or.inr ⟨hin, fun hpk => hnm ?_⟩
      have : (d.find? (fun q => q.1 = k)).isSome := by
        rw [List.find?_isSome]
        exact ⟨p, hin, by simp [hpk]⟩
      simpa [dmem, dlookup, Option.isSome_map] using this
    · exact Or.inl (List.mem_singleton.mp hin)

theorem dlookup_of_mem_nodup (d : Dict) (hnd : (d.map Prod.fst).Nodup)
    (k : String) (v : Val) (hm : (k, v) ∈ d) : dlookup d k = some v := by
  induction d with
  | nil => simp at hm
  | cons p rest ih =>
    rw [List.map_cons, List.nodup_cons] at hnd
    rcases List.mem_cons.mp hm with heq | hin
    · rw [dlookup_cons, if_pos (congrArg Prod.fst heq.symm)]
      rw [← heq]
    · have hne : p.1 ≠ k := by
        intro hpk
        exact hnd.1 (hpk ▸ List.mem_map.mpr ⟨(k, v), hin, rfl⟩)
      rw [dlookup_cons, if_neg hne]
      exact ih hnd.2 hin

theorem dset_self (d : Dict) (hnd : (d.map Prod.fst).Nodup) (k : String)
    (v : Val) (hk : dlookup d k = some v) : dset d k v = d := by
  unfold dset
  rw [if_pos (by simp [dmem, hk])]
  apply map_id_of_eq
  intro q hq
  by_cases hqk : q.1 = k
  · rw [if_pos hqk]
    induction d with
    | nil => simp at hq
    | cons p rest ih =>
      rw [List.map_cons, List.nodup_cons] at hnd
      rw [dlookup_cons] at hk
      rcases List.mem_cons.mp hq with heq | hin
      · subst heq
        rw [if_pos hqk] at hk
        obtain rfl : q.2 = v := Option.some.inj hk
        exact (congrArg (fun s => (s, q.2)) hqk.symm).trans rfl
      · have hpk : p.1 ≠ k := by
          intro hpk
          exact hnd.1 (hpk ▸ List.mem_map.mpr ⟨(k, q.2), hqk ▸ hin, hqk ▸ rfl⟩)
        rw [if_neg hpk] at hk
        exact ih hnd.2 hk hin
  · rw [if_neg hqk]

theorem pyGet_eq_of_ne_null (d : Dict) (k : String) (v : Val)
    (hv : pyGet d k = v) (hvn : v ≠ .null) : dlookup d k = some v := by
  unfold pyGet at hv
  cases hdl : dlookup d k with
  | none =>
    simp only [hdl, Option.getD_none] at hv
    exact absurd hv.symm hvn
  | some w =>
    simp only [hdl, Option.getD_some] at hv
    rw [hv]

/-! ## Properties of the match filter -/

theorem buildMatchOn_values (fields : List GField) (matchOn : List String)
    (vd : Dict) (hsrc : ∀ f ∈ fields, srcOrName f = f.name) :
    ∀ p ∈ buildMatchOn fields matchOn vd, p.2 = pyGet vd p.1 := by
  unfold buildMatchOn
  refine foldl_preserve (fun m => ∀ q ∈ m, q.2 = pyGet vd q.1)
    (fun m key =>
      if fields.all (fun f => f.name ≠ key) then dset m key (pyGet vd key)
      else m)
    matchOn _ ?_ ?_
  · refine foldl_preserve (fun m => ∀ q ∈ m, q.2 = pyGet vd q.1)
      (fun m f =>
        if f.name ∈ matchOn then dset m (srcOrName f) (pyGet vd f.name)
        else m)
      fields _ ?_ ?_
    · intro q hq; simp at hq
    · intro m f hf hm q hq
      dsimp only at hq
      by_cases hcond : f.name ∈ matchOn
      · rw [if_pos hcond] at hq
        rcases mem_dset _ _ _ _ hq with heq | ⟨hin, _⟩
        · rw [heq, hsrc f hf]
        · exact hm q hin
      · rw [if_neg hcond] at hq
        exact hm q hq
  · intro m key hkey hm q hq
    dsimp only at hq
    by_cases hcond : fields.all (fun f => f.name ≠ key)
    · rw [if_pos hcond] at hq
      rcases mem_dset _ _ _ _ hq with heq | ⟨hin, _⟩
      · rw [heq]
      · exact hm q hin
    · rw [if_neg hcond] at hq
      exact hm q hq

theorem filter_map_replace (l : List Entity) (n : Nat) (e1 : Entity)
    (p : Entity → Bool) (hpair : l.Pairwise (fun a b => a.pk ≠ b.pk))
    (hnone : ∀ x ∈ l, p x = false) (hp1 : p e1 = true)
    (hex : ∃ x ∈ l, x.pk = n) :
    (l.map (fun x => if x.pk = n then e1 else x)).filter p = [e1] := by
  induction l with
  | nil => simp at hex
  | cons x rest ih =>
    rw [List.pairwise_cons] at hpair
    rw [List.map_cons]
    by_cases hxn : x.pk = n
    · rw [if_pos hxn, List.filter_cons, if_pos hp1]
      have hrest : rest.map (fun y => if y.pk = n then e1 else y) = rest := by
        apply map_id_of_eq
        intro y hy
        rw [if_neg (fun hyn => hpair.1 y hy (hxn.trans hyn.symm))]
      rw [hrest, List.filter_eq_nil_iff.mpr
        (fun y hy => by simp [hnone y (List.mem_cons_of_mem _ hy)])]
    · rw [if_neg hxn, List.filter_cons,
        if_neg (by simp [hnone x (List.mem_cons_self _ _)])]
      refine ih hpair.2 (fun y hy => hnone y (List.mem_cons_of_mem _ hy)) ?_
      rcases hex with ⟨y, hy, hyn⟩
      rcases List.mem_cons.mp hy with rfl | hy'
      · exact absurd hyn hxn
      · exact ⟨y, hy', hyn⟩

theorem modelSaveNew_spec (st : Store) (vd : Dict) (hwf : st.wf) :
    (modelSaveNew st vd).2.attrs = vd ∧
    (∀ m : Nat, dlookup vd "pk" = some (.int (.ofNat m)) →
      (modelSaveNew st vd).2.pk = m) ∧
    (modelSaveNew st vd).2 ∈ (modelSaveNew st vd).1.ents ∧
    (∀ x ∈ (modelSaveNew st vd).1.ents, x.pk = (modelSaveNew st vd).2.pk →
      x = (modelSaveNew st vd).2) ∧
    (∀ (p : Entity → Bool), (∀ x ∈ st.ents, p x = false) →
      p (modelSaveNew st vd).2 = true →
      (modelSaveNew st vd).1.ents.filter p = [(modelSaveNew st vd).2]) := by
  have happend : ∀ (e : Entity) (p : Entity → Bool),
      (∀ x ∈ st.ents, p x = false) → p e = true →
      (st.ents ++ [e]).filter p = [e] := by
    intro e p hnone hp1
    rw [List.filter_append, List.filter_eq_nil_iff.mpr
      (fun y hy => by simp [hnone y hy]), List.filter_cons, if_pos hp1]
    rfl
  have hfresh : ∀ x ∈ st.ents, x.pk = st.nextPk → False :=
    fun x hx hpk => absurd hpk (Nat.ne_of_lt (hwf.2.1 x hx).2)
  rcases hdl : dlookup vd "pk" with _ | v
  case none =>
    simp only [modelSaveNew, hdl]
    refine ⟨by simp, ?_, by simp, ?_, ?_⟩
    · intro m hm; simp at hm
    · intro x hx hpk
      simp only [List.mem_append, List.mem_singleton] at hx
      rcases hx with hx | rfl
      · exact (hfresh x hx hpk).elim
      · rfl
    · intro p hnone hp1; exact happend _ p hnone hp1
  case some =>
    rcases v with _ | i | s | t
    case int =>
      rcases i with n | n
      case ofNat =>
        simp only [modelSaveNew, hdl]
        by_cases hany : st.ents.any (fun x => x.pk = n)
        · rw [if_pos hany]
          rcases List.any_eq_true.mp hany with ⟨w, hw, hwn⟩
          simp only [decide_eq_true_eq] at hwn
          refine ⟨by simp, ?_, ?_, ?_, ?_⟩
          · intro m hm; simp at hm; omega
          · exact List.mem_map.mpr ⟨w, hw, by rw [if_pos hwn]⟩
          · intro x hx hpk
            rcases List.mem_map.mp hx with ⟨q, hq, hmap⟩
            by_cases hqn : q.pk = n
            · rw [if_pos hqn] at hmap; exact hmap.symm
            · rw [if_neg hqn] at hmap
              exact absurd (hmap ▸ hpk) hqn
          · intro p hnone hp1
            exact filter_map_replace st.ents n _ p hwf.1 hnone hp1 ⟨w, hw, hwn⟩
        · rw [if_neg hany]
          refine ⟨by simp, ?_, by simp, ?_, ?_⟩
          · intro m hm; simp at hm; omega
          · intro x hx hpk
            simp only [List.mem_append, List.mem_singleton] at hx
            rcases hx with hx | rfl
            · refine absurd hany ?_
              simp only [not_not]
              exact List.any_eq_true.mpr ⟨x, hx, by simp [hpk]⟩
            · rfl
          · intro p hnone hp1; exact happend _ p hnone hp1
      case negSucc =>
        simp only [modelSaveNew, hdl]
        refine ⟨by simp, ?_, by simp, ?_, ?_⟩
        · intro m hm; simp at hm
        · intro x hx hpk
          simp only [List.mem_append, List.mem_singleton] at hx
          rcases hx with hx | rfl
          · exact (hfresh x hx hpk).elim
          · rfl
        · intro p hnone hp1; exact happend _ p hnone hp1
    case null =>
      simp only [modelSaveNew, hdl]
      refine ⟨by simp, ?_, by simp, ?_, ?_⟩
      · intro m hm; simp at hm
      · intro x hx hpk
        simp only [List.mem_append, List.mem_singleton] at hx
        rcases hx with hx | rfl
        · exact (hfresh x hx hpk).elim
        · rfl
      · intro p hnone hp1; exact happend _ p hnone hp1
    case str =>
      simp only [modelSaveNew, hdl]
      refine ⟨by simp, ?_, by simp, ?_, ?_⟩
      · intro m hm; simp at hm
      · intro x hx hpk
        simp only [List.mem_append, List.mem_singleton] at hx
        rcases hx with hx | rfl
        · exact (hfresh x hx hpk).elim
        · rfl
      · intro p hnone hp1; exact happend _ p hnone hp1
    case objv =>
      simp only [modelSaveNew, hdl]
      refine ⟨by simp, ?_, by simp, ?_, ?_⟩
      · intro m hm; simp at hm
      · intro x hx hpk
        simp only [List.mem_append, List.mem_singleton] at hx
        rcases hx with hx | rfl
        · exact (hfresh x hx hpk).elim
        · rfl
      · intro p hnone hp1; exact happend _ p hnone hp1

theorem applyAttrs_eq_self (e : Entity) (vd : Dict)
    (hattrs : e.attrs = vd) (hnd : (vd.map Prod.fst).Nodup)
    (hpk : ∀ n : Nat, ("pk", Val.int (Int.ofNat n)) ∈ vd → n = e.pk) :
    applyAttrs e vd = e := by
  unfold applyAttrs
  apply foldl_step_fixed
  intro b hb
  dsimp only
  by_cases hbk : b.1 = "pk"
  · rw [if_pos hbk]
    rcases hb2 : b.2 with _ | i | s | t
    · rfl
    · rcases i with n | n
      · have hbin : ("pk", Val.int (Int.ofNat n)) ∈ vd := by
          rw [← hbk, ← hb2, Prod.mk.eta]
          exact hb
        have := hpk n hbin
        obtain ⟨epk, eattrs, epar, eprot⟩ := e
        simp only at this
        rw [this]
      · rfl
    · rfl
    · rfl
  · rw [if_neg hbk]
    have hbin : (b.1, b.2) ∈ vd := by rw [Prod.mk.eta]; exact hb
    have hds : dset e.attrs b.1 b.2 = e.attrs := by
      rw [hattrs]
      exact dset_self vd hnd b.1 b.2 (dlookup_of_mem_nodup vd hnd b.1 b.2 hbin)
    rw [hds]

/-- Claim C8: saving the same payload twice through
`GetOrCreateNestedSerializerMixin.save` with an unchanged match key is
idempotent on row identity.  On a store where no row yet matches the
filter built from the match-on keys, the first save creates one row;
the second save finds exactly that row via the match-key lookup and
updates it in place, leaving the store unchanged, so exactly one row
matches the match key after both saves — no duplicate is created.
(The hypotheses: well-formed store, field sources coinciding with
names, duplicate-free validated data, and every `pk` match value being
a concrete integer, i.e. the match key is actually present.) -/
theorem claim_C8 (fields : List GField) (matchOn : List String)
    (vd kwargs : Dict) (st0 : Store) (hwf : st0.wf)
    (hsrc : ∀ f ∈ fields, srcOrName f = f.name)
    (hnd : ((dmerge vd kwargs).map Prod.fst).Nodup)
    (hpkfilt : ∀ v, ("pk", v) ∈ buildMatchOn fields matchOn (dmerge vd kwargs)
      → ∃ n : Nat, v = Val.int (Int.ofNat n))
    (hnomatch : matchingRows st0
      (buildMatchOn fields matchOn (dmerge vd kwargs)) = []) :
    ∃ e1 : Entity,
      (goc_save fields matchOn vd kwargs st0).2 = .saved e1 ∧
      matchingRows (goc_save fields matchOn vd kwargs st0).1
          (buildMatchOn fields matchOn (dmerge vd kwargs)) = [e1] ∧
      goc_save fields matchOn vd kwargs
          (goc_save fields matchOn vd kwargs st0).1
        = ((goc_save fields matchOn vd kwargs st0).1, .saved e1) := by
  set vdf := dmerge vd kwargs with hvdf
  set filt := buildMatchOn fields matchOn vdf with hfilt
  obtain ⟨hattrs, hpkspec, hmem, huniq, hfilter⟩ := modelSaveNew_spec st0 vdf hwf
  set st1 := (modelSaveNew st0 vdf).1 with hst1
  set e1 := (modelSaveNew st0 vdf).2 with he1
  have hvals : ∀ p ∈ filt, p.2 = pyGet vdf p.1 :=
    buildMatchOn_values fields matchOn vdf hsrc
  have hmatch1 : matchesFilt filt e1 = true := by
    unfold matchesFilt
    rw [List.all_eq_true]
    intro p hp
    rw [decide_eq_true_eq]
    have hv := hvals p hp
    by_cases hp1 : p.1 = "pk"
    · have hpkmem : ("pk", p.2) ∈ filt := by
        rw [← hp1, Prod.mk.eta]
        exact hp
      obtain ⟨n, hn⟩ := hpkfilt p.2 hpkmem
      have hlk : dlookup vdf "pk" = some (Val.int (Int.ofNat n)) := by
        apply pyGet_eq_of_ne_null
        · rw [← hp1, ← hv, hn]
        · intro hcontra; cases hcontra
      have hep : e1.pk = n := hpkspec n hlk
      rw [rowVal, if_pos hp1, hep, hn]
    · rw [rowVal, if_neg hp1, hattrs, ← hv]
  have hfilter1 : matchingRows st1 filt = [e1] := by
    refine hfilter (matchesFilt filt) ?_ hmatch1
    intro x hx
    have hnm := List.filter_eq_nil_iff.mp hnomatch x hx
    exact (Bool.not_eq_true _).mp hnm
  have hq0 : qsGet st0 filt = .doesNotExist := by
    unfold qsGet
    rw [hnomatch]
  have hsave1 : goc_save fields matchOn vd kwargs st0 = (st1, .saved e1) := by
    unfold goc_save
    rw [← hvdf, ← hfilt, hq0]
  have hq1 : qsGet st1 filt = .found e1 := by
    unfold qsGet
    rw [hfilter1]
  have happly : applyAttrs e1 vdf = e1 := by
    refine applyAttrs_eq_self e1 vdf hattrs hnd ?_
    intro n hn
    exact (hpkspec n (dlookup_of_mem_nodup vdf hnd "pk" _ hn)).symm
  have hexist : modelSaveExisting st1 e1 = (st1, e1) := by
    unfold modelSaveExisting
    rw [if_pos (List.any_eq_true.mpr ⟨e1, hmem, by simp⟩)]
    have hmapid : st1.ents.map (fun x => if x.pk = e1.pk then e1 else x)
        = st1.ents := by
      apply map_id_of_eq
      intro x hx
      by_cases hxp : x.pk = e1.pk
      · rw [if_pos hxp, huniq x hx hxp]
      · rw [if_neg hxp]
    rw [hmapid]
  have hsave2 : goc_save fields matchOn vd kwargs st1 = (st1, .saved e1) := by
    unfold goc_save
    rw [← hvdf, ← hfilt, hq1]
    dsimp only
    rw [happly, hexist]
  refine ⟨e1, by rw [hsave1], ?_, ?_⟩
  · rw [hsave1]
    exact hfilter1
  · rw [hsave1]
    exact hsave2

/-- Witness for claim C8: matching on `name`, payload
`{"name": "x"}` against an empty store — the first save inserts one
row, the second updates it in place. -/
theorem claim_C8_witness :
    ∃ e1 : Entity,
      (goc_save [⟨"name", none⟩] ["name"] [("name", Val.str "x")] []
        ⟨[], [], 1⟩).2 = .saved e1 ∧
      matchingRows (goc_save [⟨"name", none⟩] ["name"]
          [("name", Val.str "x")] [] ⟨[], [], 1⟩).1
          (buildMatchOn [⟨"name", none⟩] ["name"]
            (dmerge [("name", Val.str "x")] [])) = [e1] ∧
      goc_save [⟨"name", none⟩] ["name"] [("name", Val.str "x")] []
          (goc_save [⟨"name", none⟩] ["name"] [("name", Val.str "x")] []
            ⟨[], [], 1⟩).1
        = ((goc_save [⟨"name", none⟩] ["name"] [("name", Val.str "x")] []
            ⟨[], [], 1⟩).1, .saved e1) := by
  refine claim_C8 [⟨"name", none⟩] ["name"] [("name", Val.str "x")] []
    ⟨[], [], 1⟩ ?_ ?_ ?_ ?_ ?_
  · refine ⟨List.Pairwise.nil, ?_, ?_⟩
    · intro e he; simp at he
    · decide
  · intro f hf
    rcases List.mem_singleton.mp hf with rfl
    rfl
  · decide
  · intro v hv
    have : buildMatchOn [⟨"name", none⟩] ["name"]
        (dmerge [("name", Val.str "x")] []) = [("name", Val.str "x")] := rfl
    rw [this] at hv
    simp at hv
  · rfl

/-! ## Store membership helpers for the reverse-relation pipeline -/

/-- A row with the given pk is present. -/
def hasPk (st : Store) (p : Nat) : Prop :=
  ∃ e ∈ st.ents, e.pk = p

/-- A row with the given pk has its foreign key pointing at `ipk`. -/
def hasParent (st : Store) (c ipk : Nat) : Prop :=
  ∃ e ∈ st.ents, e.pk = c ∧ e.parent = some ipk

/-- The prefetched instance matched by one payload item. -/
def keyOf (ctx : RevCtx) (insts : List (String × Entity)) (d : Dict) :
    Option Entity :=
  iget insts (get_related_pk d ctx.pkAttname)

theorem iget_prefetch_mem (a : String) (st : Store) (rd : List Dict)
    (o : Option String) (e : Entity)
    (h : iget (prefetch_related_instances a st rd) o = some e) :
    e ∈ st.ents := by
  rcases o with _ | s
  · cases h
  · simp only [iget] at h
    rcases hf : List.find? (fun p => p.1 = s)
        (prefetch_related_instances a st rd) with _ | q
    · rw [hf] at h; cases h
    · rw [hf] at h
      obtain rfl : q.2 = e := Option.some.inj h
      have hqmem := List.mem_of_find?_eq_some hf
      unfold prefetch_related_instances at hqmem
      rcases List.mem_map.mp hqmem with ⟨x, hx, hmap⟩
      rw [← hmap]
      exact List.mem_of_mem_filter hx

theorem wf_unique (st : Store) (hwf : st.wf) (e e' : Entity)
    (he : e ∈ st.ents) (he' : e' ∈ st.ents) (hpk : e.pk = e'.pk) : e = e' := by
  by_contra hne
  exact List.Pairwise.forall (fun {_ _} h => Ne.symm h) hwf.1 he he' hne hpk

theorem dlookup_append_of_none (d d' : Dict) (k : String)
    (h : dlookup d k = none) : dlookup (d ++ d') k = dlookup d' k := by
  induction d with
  | nil => rfl
  | cons p rest ih =>
    rw [dlookup_cons] at h
    rw [List.cons_append, dlookup_cons]
    by_cases hpk : p.1 = k
    · rw [if_pos hpk] at h; cases h
    · rw [if_neg hpk] at h ⊢
      exact ih h

theorem dlookup_dset_self (d : Dict) (k : String) (v : Val) :
    dlookup (dset d k v) k = some v := by
  unfold dset
  split
  · next hmem =>
    induction d with
    | nil => simp [dmem, dlookup] at hmem
    | cons p rest ih =>
      rw [List.map_cons]
      by_cases hpk : p.1 = k
      · rw [if_pos hpk, dlookup_cons, if_pos rfl]
      · rw [if_neg hpk, dlookup_cons, if_neg hpk]
        refine ih ?_
        unfold dmem at hmem ⊢
        rw [dlookup_cons, if_neg hpk] at hmem
        exact hmem
  · next hmem =>
    have hnone : dlookup d k = none := by
      unfold dmem at hmem
      exact Option.not_isSome_iff_eq_none.mp hmem
    rw [dlookup_append_of_none d _ k hnone, dlookup_cons, if_pos rfl]

theorem get_related_pk_dset (d : Dict) (a : String) (p : Nat) (hp : 1 ≤ p) :
    get_related_pk (dset d "pk" (Val.int (Int.ofNat p))) a
      = some (Nat.repr p) := by
  have hlk : pyGet (dset d "pk" (Val.int (Int.ofNat p))) "pk"
      = Val.int (Int.ofNat p) := by
    unfold pyGet
    rw [dlookup_dset_self]
    rfl
  have htr : (Val.int (Int.ofNat p)).truthy = true := by
    simp [Val.truthy]
    omega
  unfold get_related_pk
  rw [hlk]
  simp only [htr, if_true, if_pos htr]
  rw [pyStr_int_ofNat]

theorem dset_ne_nil (d : Dict) (k : String) (v : Val) : dset d k v ≠ [] := by
  unfold dset
  split
  · next hmem =>
    intro hcontra
    rcases d with _ | ⟨p, rest⟩
    · simp [dmem, dlookup] at hmem
    · simp at hcontra
  · intro hcontra
    rcases d with _ | ⟨p, rest⟩
    · simp at hcontra
    · simp at hcontra

theorem replace_mem_iff (l : List Entity) (k : Nat) (y : Entity)
    (hpair : l.Pairwise (fun a b => a.pk ≠ b.pk))
    (hex : ∃ x ∈ l, x.pk = k) (x' : Entity) :
    x' ∈ l.map (fun x => if x.pk = k then y else x) ↔
      (x' = y ∨ (x' ∈ l ∧ x'.pk ≠ k)) := by
  induction l with
  | nil => simp at hex
  | cons x xs ih =>
    rw [List.pairwise_cons] at hpair
    rw [List.map_cons]
    by_cases hxk : x.pk = k
    · rw [if_pos hxk]
      have hxs : xs.map (fun z => if z.pk = k then y else z) = xs :=
        map_id_of_eq _ _ (fun z hz =>
          if_neg (fun hzk => hpair.1 z hz (hxk.trans hzk.symm)))
      rw [hxs]
      constructor
      · intro hm
        rcases List.mem_cons.mp hm with rfl | hm
        · exact Or.inl rfl
        · exact Or.inr ⟨List.mem_cons_of_mem _ hm,
            fun hpk => hpair.1 x' hm (hxk.trans hpk.symm)⟩
      · intro hor
        rcases hor with rfl | ⟨hm, hne⟩
        · exact List.mem_cons_self _ _
        · rcases List.mem_cons.mp hm with rfl | hm
          · exact absurd hxk hne
          · exact List.mem_cons_of_mem _ hm
    · rw [if_neg hxk]
      have hex' : ∃ z ∈ xs, z.pk = k := by
        rcases hex with ⟨z, hz, hzk⟩
        rcases List.mem_cons.mp hz with rfl | hz
        · exact absurd hzk hxk
        · exact ⟨z, hz, hzk⟩
      rw [List.mem_cons, ih hpair.2 hex']
      constructor
      · rintro (rfl | hor)
        · exact Or.inr ⟨List.mem_cons_self _ _, hxk⟩
        · rcases hor with rfl | ⟨hm, hne⟩
          · exact Or.inl rfl
          · exact Or.inr ⟨List.mem_cons_of_mem _ hm, hne⟩
      · rintro (rfl | ⟨hor, hne⟩)
        · exact Or.inr (Or.inl rfl)
        · rcases List.mem_cons.mp hor with rfl | hm
          · exact Or.inl rfl
          · exact Or.inr (Or.inr ⟨hm, hne⟩)

theorem replace_pairwise (l : List Entity) (k : Nat) (y : Entity)
    (hpair : l.Pairwise (fun a b => a.pk ≠ b.pk)) (hy : y.pk = k) :
    (l.map (fun x => if x.pk = k then y else x)).Pairwise
      (fun a b => a.pk ≠ b.pk) := by
  have hfpk : ∀ x : Entity, (if x.pk = k then y else x).pk = x.pk := by
    intro x
    by_cases hxk : x.pk = k
    · rw [if_pos hxk, hy, hxk]
    · rw [if_neg hxk]
  rw [List.pairwise_map]
  exact hpair.imp (fun {a b} h => by rw [hfpk a, hfpk b]; exact h)

theorem childSave_some_spec (st : Store) (e : Entity) (a : Dict)
    (pl : Option Nat) (hwf : st.wf) (hex : hasPk st e.pk) :
    (childSave st (some e) a pl).2 = e.pk ∧
    (childSave st (some e) a pl).1.nextPk = st.nextPk ∧
    (childSave st (some e) a pl).1.joins = st.joins ∧
    (childSave st (some e) a pl).1.wf ∧
    (∀ x', x' ∈ (childSave st (some e) a pl).1.ents ↔
      (x' = updEntity e a pl ∨ (x' ∈ st.ents ∧ x'.pk ≠ e.pk))) := by
  have hupd : (updEntity e a pl).pk = e.pk := rfl
  have hmemiff := replace_mem_iff st.ents e.pk (updEntity e a pl)
    hwf.1 hex
  refine ⟨rfl, rfl, rfl, ⟨?_, ?_, hwf.2.2⟩, hmemiff⟩
  · exact replace_pairwise st.ents e.pk _ hwf.1 hupd
  · intro x' hx'
    rcases (hmemiff x').mp hx' with rfl | ⟨hm, _⟩
    · rw [hupd]
      rcases hex with ⟨w, hw, hwpk⟩
      rw [← hwpk]
      exact hwf.2.1 w hw
    · exact hwf.2.1 x' hm

theorem childSave_none_spec (st : Store) (a : Dict) (pl : Option Nat)
    (hwf : st.wf) :
    (childSave st none a pl).2 = st.nextPk ∧
    (childSave st none a pl).1.nextPk = st.nextPk + 1 ∧
    (childSave st none a pl).1.joins = st.joins ∧
    (childSave st none a pl).1.wf ∧
    (∀ x', x' ∈ (childSave st none a pl).1.ents ↔
      (x' = { pk := st.nextPk, attrs := a, parent := pl, prot := false }
        ∨ x' ∈ st.ents)) := by
  have hents : (childSave st none a pl).1.ents
      = st.ents ++ [{ pk := st.nextPk, attrs := a, parent := pl,
                      prot := false }] := rfl
  have hnext : (childSave st none a pl).1.nextPk = st.nextPk + 1 := rfl
  refine ⟨rfl, rfl, rfl, ⟨?_, ?_, ?_⟩, ?_⟩
  · rw [hents, List.pairwise_append]
    refine ⟨hwf.1, List.pairwise_singleton _ _, ?_⟩
    intro x hx y hy
    rcases List.mem_singleton.mp hy with rfl
    exact Nat.ne_of_lt (hwf.2.1 x hx).2
  · intro x' hx'
    rw [hents, List.mem_append, List.mem_singleton] at hx'
    rw [hnext]
    rcases hx' with hx' | rfl
    · have := hwf.2.1 x' hx'
      exact ⟨this.1, by omega⟩
    · exact ⟨hwf.2.2, Nat.lt_succ_self _⟩
  · rw [hnext]
    omega
  · intro x'
    rw [hents, List.mem_append, List.mem_singleton]
    constructor
    · rintro (hm | rfl)
      · exact Or.inr hm
      · exact Or.inl rfl
    · rintro (rfl | hm)
      · exact Or.inr rfl
      · exact Or.inl hm

theorem revLoop_cons_ok (ctx : RevCtx) (pl : Option Nat)
    (insts : List (String × Entity)) (d : Dict) (rest : List Dict)
    (st : Store) (a : Dict) (ha : ctx.valf d = Except.ok a) :
    revLoop ctx pl insts (d :: rest) st =
      (dset d "pk"
          (Val.int (Int.ofNat (childSave st (keyOf ctx insts d) a pl).2))
        :: (revLoop ctx pl insts rest
              (childSave st (keyOf ctx insts d) a pl).1).1,
       (revLoop ctx pl insts rest
          (childSave st (keyOf ctx insts d) a pl).1).2.1,
       (childSave st (keyOf ctx insts d) a pl).2
        :: (revLoop ctx pl insts rest
              (childSave st (keyOf ctx insts d) a pl).1).2.2.1,
       ([] : Dict)
        :: (revLoop ctx pl insts rest
              (childSave st (keyOf ctx insts d) a pl).1).2.2.2) := by
  rw [revLoop]
  dsimp only
  rw [ha]
  rfl

theorem revLoop_cons_err (ctx : RevCtx) (pl : Option Nat)
    (insts : List (String × Entity)) (d : Dict) (rest : List Dict)
    (st : Store) (detail : Dict) (ha : ctx.valf d = Except.error detail) :
    revLoop ctx pl insts (d :: rest) st =
      (d :: (revLoop ctx pl insts rest st).1,
       (revLoop ctx pl insts rest st).2.1,
       (revLoop ctx pl insts rest st).2.2.1,
       detail :: (revLoop ctx pl insts rest st).2.2.2) := by
  rw [revLoop]
  dsimp only
  rw [ha]

/-- Behaviour of the per-item loop when every payload item validates:
every item is saved in order, each saved pk is written back into its
item, the store stays well formed, the join table and previously
present rows survive, foreign keys of saved children point at the
parent, and rows never matched by any item are untouched. -/
theorem revLoop_ok_spec (ctx : RevCtx) (pl : Option Nat)
    (insts : List (String × Entity)) (ds : List Dict) (st : Store)
    (hwf : st.wf)
    (hins : ∀ o e, iget insts o = some e → hasPk st e.pk)
    (hinsprot : ∀ o e, iget insts o = some e → e.prot = false)
    (hval : ∀ d ∈ ds, ∃ a, ctx.valf d = Except.ok a)
    (hpair : ds.Pairwise (fun d d' => ∀ e e', keyOf ctx insts d = some e →
      keyOf ctx insts d' = some e' → e.pk ≠ e'.pk)) :
    (revLoop ctx pl insts ds st).2.2.2 = List.replicate ds.length [] ∧
    (revLoop ctx pl insts ds st).2.2.1.length = ds.length ∧
    (revLoop ctx pl insts ds st).1
      = List.zipWith (fun d p => dset d "pk" (Val.int (Int.ofNat p))) ds
          (revLoop ctx pl insts ds st).2.2.1 ∧
    (revLoop ctx pl insts ds st).2.1.wf ∧
    (revLoop ctx pl insts ds st).2.1.joins = st.joins ∧
    st.nextPk ≤ (revLoop ctx pl insts ds st).2.1.nextPk ∧
    (∀ q, hasPk st q → hasPk (revLoop ctx pl insts ds st).2.1 q) ∧
    (∀ p ∈ (revLoop ctx pl insts ds st).2.2.1,
      1 ≤ p ∧ hasPk (revLoop ctx pl insts ds st).2.1 p) ∧
    (∀ ipk, pl = some ipk → ∀ c,
      hasParent (revLoop ctx pl insts ds st).2.1 c ipk ↔
        (c ∈ (revLoop ctx pl insts ds st).2.2.1 ∨ hasParent st c ipk)) ∧
    (∀ d ∈ ds, ∀ e, keyOf ctx insts d = some e →
      e.pk ∈ (revLoop ctx pl insts ds st).2.2.1) ∧
    (∀ x ∈ st.ents, (∀ d ∈ ds, ∀ e', keyOf ctx insts d = some e' →
        e'.pk ≠ x.pk) → x ∈ (revLoop ctx pl insts ds st).2.1.ents) ∧
    (∀ d ∈ ds, ∀ a, ctx.valf d = Except.ok a →
      ∃ p ∈ (revLoop ctx pl insts ds st).2.2.1,
        ∃ e ∈ (revLoop ctx pl insts ds st).2.1.ents, e.pk = p ∧
          (e.attrs = a ∨ ∃ b, e.attrs = dmerge b a) ∧
          (∀ ipk, pl = some ipk → e.parent = some ipk)) ∧
    ((∀ x ∈ st.ents, x.prot = false) →
      ∀ x ∈ (revLoop ctx pl insts ds st).2.1.ents, x.prot = false) := by
  induction ds generalizing st with
  | nil =>
    refine ⟨rfl, rfl, rfl, hwf, rfl, Nat.le_refl _, fun q h => h, ?_, ?_, ?_,
      ?_, ?_, fun h => h⟩
    · intro p hp; simp [revLoop] at hp
    · intro ipk _ c
      constructor
      · intro h; exact Or.inr h
      · rintro (h | h)
        · simp [revLoop] at h
        · exact h
    · intro d hd; simp at hd
    · intro x hx _; exact hx
    · intro d hd; simp at hd
  | cons d rest ih =>
    obtain ⟨a, ha⟩ := hval d (List.mem_cons_self _ _)
    rw [List.pairwise_cons] at hpair
    have hvalrest : ∀ d' ∈ rest, ∃ a', ctx.valf d' = Except.ok a' :=
      fun d' hd' => hval d' (List.mem_cons_of_mem _ hd')
    rw [revLoop_cons_ok ctx pl insts d rest st a ha]
    obtain ⟨p1, newRow, hp1, hwf1, hjoins1, hnext1, hhaspk1, hmemNew,
        hrowpk, hattrsNew, hparNew, hp1pos, hstepPar, hrestmiss, hsurv0,
        hkeyhit⟩ :
        ∃ (p1 : Nat) (newRow : Entity),
          (childSave st (keyOf ctx insts d) a pl).2 = p1 ∧
          (childSave st (keyOf ctx insts d) a pl).1.wf ∧
          (childSave st (keyOf ctx insts d) a pl).1.joins = st.joins ∧
          st.nextPk ≤ (childSave st (keyOf ctx insts d) a pl).1.nextPk ∧
          (∀ q, hasPk st q →
            hasPk (childSave st (keyOf ctx insts d) a pl).1 q) ∧
          newRow ∈ (childSave st (keyOf ctx insts d) a pl).1.ents ∧
          newRow.pk = p1 ∧
          (newRow.attrs = a ∨ ∃ b, newRow.attrs = dmerge b a) ∧
          (∀ ipk, pl = some ipk → newRow.parent = some ipk) ∧
          1 ≤ p1 ∧
          (∀ ipk, pl = some ipk → ∀ c,
            hasParent (childSave st (keyOf ctx insts d) a pl).1 c ipk ↔
              (c = p1 ∨ hasParent st c ipk)) ∧
          (∀ d' ∈ rest, ∀ e', keyOf ctx insts d' = some e' →
            e'.pk ≠ p1) ∧
          (∀ x ∈ st.ents, (∀ e', keyOf ctx insts d = some e' →
            e'.pk ≠ x.pk) →
            x ∈ (childSave st (keyOf ctx insts d) a pl).1.ents) ∧
          (∀ e', keyOf ctx insts d = some e' → e'.pk = p1) := by
      rcases hobj : keyOf ctx insts d with _ | e
      · obtain ⟨hp1, hnext1, hjoins1, hwf1, hmem1⟩ :=
          childSave_none_spec st a pl hwf
        refine ⟨st.nextPk,
          { pk := st.nextPk, attrs := a, parent := pl, prot := false },
          hp1, hwf1, hjoins1, by rw [hnext1]; omega, ?_, ?_, rfl, Or.inl rfl,
          ?_, hwf.2.2, ?_, ?_, ?_, ?_⟩
        · intro q hq
          rcases hq with ⟨x, hx, hq⟩
          exact ⟨x, (hmem1 x).mpr (Or.inr hx), hq⟩
        · exact (hmem1 _).mpr (Or.inl rfl)
        · intro ipk hpl
          subst hpl
          rfl
        · intro ipk hpl c
          constructor
          · rintro ⟨x, hx, hxpk, hxpar⟩
            rcases (hmem1 x).mp hx with rfl | hx'
            · exact Or.inl hxpk.symm
            · exact Or.inr ⟨x, hx', hxpk, hxpar⟩
          · rintro (rfl | ⟨x, hx, hxpk, hxpar⟩)
            · subst hpl
              exact ⟨_, (hmem1 _).mpr (Or.inl rfl), rfl, rfl⟩
            · exact ⟨x, (hmem1 x).mpr (Or.inr hx), hxpk, hxpar⟩
        · intro d' _ e' hk
          rcases hins _ e' hk with ⟨w, hw, hwpk⟩
          rw [← hwpk]
          exact Nat.ne_of_lt (hwf.2.1 w hw).2
        · intro x hx _
          exact (hmem1 x).mpr (Or.inr hx)
        · intro e' hk; cases hk
      · have hhase : hasPk st e.pk := hins _ e hobj
        obtain ⟨hp1, hnext1, hjoins1, hwf1, hmem1⟩ :=
          childSave_some_spec st e a pl hwf hhase
        refine ⟨e.pk, updEntity e a pl, hp1, hwf1, hjoins1,
          by rw [hnext1], ?_, (hmem1 _).mpr (Or.inl rfl), rfl,
          Or.inr ⟨e.attrs, rfl⟩, ?_, ?_, ?_, ?_, ?_, ?_⟩
        · intro q hq
          rcases hq with ⟨x, hx, hq⟩
          by_cases hxe : x.pk = e.pk
          · exact ⟨updEntity e a pl, (hmem1 _).mpr (Or.inl rfl),
              by show e.pk = q; rw [← hxe, hq]⟩
          · exact ⟨x, (hmem1 x).mpr (Or.inr ⟨hx, hxe⟩), hq⟩
        · intro ipk hpl
          subst hpl
          rfl
        · rcases hhase with ⟨w, hw, hwpk⟩
          rw [← hwpk]
          exact (hwf.2.1 w hw).1
        · intro ipk hpl c
          subst hpl
          constructor
          · rintro ⟨x, hx, hxpk, hxpar⟩
            rcases (hmem1 x).mp hx with rfl | ⟨hx', hxe⟩
            · exact Or.inl hxpk.symm
            · exact Or.inr ⟨x, hx', hxpk, hxpar⟩
          · rintro (rfl | ⟨x, hx, hxpk, hxpar⟩)
            · exact ⟨updEntity e a (some ipk), (hmem1 _).mpr (Or.inl rfl),
                rfl, rfl⟩
            · by_cases hxe : x.pk = e.pk
              · refine ⟨updEntity e a (some ipk), (hmem1 _).mpr (Or.inl rfl),
                  ?_, rfl⟩
                show e.pk = c
                rw [← hxe, hxpk]
              · exact ⟨x, (hmem1 x).mpr (Or.inr ⟨hx, hxe⟩), hxpk, hxpar⟩
        · intro d' hd' e' hk
          exact fun hcontra => hpair.1 d' hd' e e' hobj hk hcontra.symm
        · intro x hx hmiss
          exact (hmem1 x).mpr (Or.inr ⟨hx, fun hxe =>
            hmiss e rfl hxe.symm⟩)
        · intro e' hk
          rw [Option.some.inj hk]
    have hins1 : ∀ o e', iget insts o = some e' →
        hasPk (childSave st (keyOf ctx insts d) a pl).1 e'.pk :=
      fun o e' h => hhaspk1 _ (hins o e' h)
    have hstepprot : (∀ x ∈ st.ents, x.prot = false) →
        ∀ x ∈ (childSave st (keyOf ctx insts d) a pl).1.ents,
          x.prot = false := by
      intro hall x hx
      rcases hobj : keyOf ctx insts d with _ | e
      · rw [hobj] at hx
        obtain ⟨_, _, _, _, hmem1⟩ := childSave_none_spec st a pl hwf
        rcases (hmem1 x).mp hx with rfl | hx'
        · rfl
        · exact hall x hx'
      · rw [hobj] at hx
        obtain ⟨_, _, _, _, hmem1⟩ := childSave_some_spec st e a pl hwf
          (hins _ e hobj)
        rcases (hmem1 x).mp hx with rfl | ⟨hx', _⟩
        · show e.prot = false
          exact hinsprot _ e hobj
        · exact hall x hx'
    obtain ⟨c1, c2, c3, c4, c5, c6, c7, c8, c9, c10, c11, c12, c13⟩ :=
      ih (childSave st (keyOf ctx insts d) a pl).1 hwf1 hins1
        hvalrest hpair.2
    rw [hp1]
    have hsurvNew : newRow ∈ (revLoop ctx pl insts rest
        (childSave st (keyOf ctx insts d) a pl).1).2.1.ents := by
      refine c11 newRow hmemNew ?_
      intro d' hd' e' hk
      rw [hrowpk]
      exact hrestmiss d' hd' e' hk
    refine ⟨?_, ?_, ?_, c4, ?_, ?_, ?_, ?_, ?_, ?_, ?_, ?_, ?_⟩
    · show _ :: _ = List.replicate (rest.length + 1) []
      rw [List.replicate_succ, c1]
    · show List.length (_ :: _) = rest.length + 1
      rw [List.length_cons, c2]
    · show _ :: _ = List.zipWith _ (d :: rest) (_ :: _)
      rw [List.zipWith_cons_cons, c3]
    · rw [c5, hjoins1]
    · exact Nat.le_trans hnext1 c6
    · intro q hq
      exact c7 q (hhaspk1 q hq)
    · intro p hp
      rcases List.mem_cons.mp hp with rfl | hp
      · exact ⟨hp1pos, c7 _ ⟨newRow, hmemNew, hrowpk⟩⟩
      · exact c8 p hp
    · intro ipk hpl c
      rw [c9 ipk hpl c, hstepPar ipk hpl c, List.mem_cons]
      constructor
      · rintro (h | rfl | h)
        · exact Or.inl (Or.inr h)
        · exact Or.inl (Or.inl rfl)
        · exact Or.inr h
      · rintro ((rfl | h) | h)
        · exact Or.inr (Or.inl rfl)
        · exact Or.inl h
        · exact Or.inr (Or.inr h)
    · intro d' hd' e' hk
      rcases List.mem_cons.mp hd' with rfl | hd'
      · rw [hkeyhit e' hk]
        exact List.mem_cons_self _ _
      · exact List.mem_cons_of_mem _ (c10 d' hd' e' hk)
    · intro x hx hmiss
      have hx1 := hsurv0 x hx
        (fun e' hk => hmiss d (List.mem_cons_self _ _) e' hk)
      exact c11 x hx1 (fun d' hd' e' hk =>
        hmiss d' (List.mem_cons_of_mem _ hd') e' hk)
    · intro d' hd' a' ha'
      rcases List.mem_cons.mp hd' with rfl | hd'
      · obtain rfl : a = a' := by
          rw [ha] at ha'
          exact Except.ok.inj ha'
        exact ⟨p1, List.mem_cons_self _ _,
          newRow, hsurvNew, hrowpk, hattrsNew, hparNew⟩
      · obtain ⟨p, hpmem, e', he', hepk, hattrs', hpar'⟩ :=
          c12 d' hd' a' ha'
        exact ⟨p, List.mem_cons_of_mem _ hpmem, e', he', hepk, hattrs',
          hpar'⟩
    · intro hall
      exact c13 (hstepprot hall)

theorem any_replicate_nil (n : Nat) :
    (List.replicate n ([] : Dict)).any (fun e => e ≠ []) = false := by
  induction n with
  | zero => rfl
  | succ n ih =>
    rw [List.replicate_succ, List.any_cons, ih]
    simp

theorem mem_foldl_addjoin (pks : List Nat) (joins : List (Nat × Nat))
    (ipk : Nat) (j : Nat × Nat) :
    j ∈ pks.foldl
        (fun js p => if (ipk, p) ∈ js then js else js ++ [(ipk, p)]) joins
      ↔ (j ∈ joins ∨ ∃ p ∈ pks, j = (ipk, p)) := by
  induction pks generalizing joins with
  | nil => simp
  | cons p rest ih =>
    rw [List.foldl_cons]
    have hstep : ∀ j', j' ∈ (if (ipk, p) ∈ joins then joins
        else joins ++ [(ipk, p)]) ↔ (j' ∈ joins ∨ j' = (ipk, p)) := by
      intro j'
      split
      · next hmem =>
        constructor
        · exact Or.inl
        · rintro (h | rfl)
          · exact h
          · exact hmem
      · rw [List.mem_append, List.mem_singleton]
    rw [ih]
    constructor
    · rintro (h | ⟨q, hq, rfl⟩)
      · rcases (hstep j).mp h with h | rfl
        · exact Or.inl h
        · exact Or.inr ⟨p, List.mem_cons_self _ _, rfl⟩
      · exact Or.inr ⟨q, List.mem_cons_of_mem _ hq, rfl⟩
    · rintro (h | ⟨q, hq, rfl⟩)
      · exact Or.inl ((hstep j).mpr (Or.inl h))
      · rcases List.mem_cons.mp hq with rfl | hq
        · exact Or.inl ((hstep _).mpr (Or.inr rfl))
        · exact Or.inr ⟨q, hq, rfl⟩

theorem extract_zipWith (a : String) (ds : List Dict) (pks : List Nat)
    (hlen : pks.length = ds.length) (hpos : ∀ p ∈ pks, 1 ≤ p) :
    extract_related_pks a
      (List.zipWith (fun d p => dset d "pk" (Val.int (Int.ofNat p))) ds pks)
      = pks.map Nat.repr := by
  induction ds generalizing pks with
  | nil =>
    rcases pks with _ | ⟨p, prest⟩
    · rfl
    · cases hlen
  | cons d rest ih =>
    rcases pks with _ | ⟨p, prest⟩
    · cases hlen
    · rw [List.zipWith_cons_cons]
      have hne := dset_ne_nil d "pk" (Val.int (Int.ofNat p))
      have hget := get_related_pk_dset d a p
        (hpos p (List.mem_cons_self _ _))
      unfold extract_related_pks
      rw [List.filter_cons, if_pos (by simpa using hne), List.foldr_cons,
        hget]
      have := ih prest (by simpa using hlen)
        (fun q hq => hpos q (List.mem_cons_of_mem _ hq))
      unfold extract_related_pks at this
      rw [this, List.map_cons]

/-- Behaviour of `update_or_create_reverse_rel` when no per-item error
occurred: no relation-level error is raised, the returned initial data
is the written-back item list, the row table and counter come straight
from the loop, and the join table is unchanged except for the
many-to-many additive association of every saved child. -/
theorem update_rel_ok_spec (ctx : RevCtx) (ipk : Nat) (rd : RelData)
    (st : Store)
    (herrs : ((revLoop ctx (parentLinkOf ctx.kind ipk)
        (prefetch_related_instances ctx.pkAttname st
          (injectedRelData ctx ipk st rd).asList)
        (injectedRelData ctx ipk st rd).asList st).2.2.2).any
        (fun e => e ≠ []) = false)
    (hlen : ((revLoop ctx (parentLinkOf ctx.kind ipk)
        (prefetch_related_instances ctx.pkAttname st
          (injectedRelData ctx ipk st rd).asList)
        (injectedRelData ctx ipk st rd).asList st).1).length
      = (injectedRelData ctx ipk st rd).asList.length) :
    (update_or_create_reverse_rel ctx ipk rd st).2.2 = none ∧
    (update_or_create_reverse_rel ctx ipk rd st).1.asList
      = (revLoop ctx (parentLinkOf ctx.kind ipk)
          (prefetch_related_instances ctx.pkAttname st
            (injectedRelData ctx ipk st rd).asList)
          (injectedRelData ctx ipk st rd).asList st).1 ∧
    (update_or_create_reverse_rel ctx ipk rd st).2.1.ents
      = (revLoop ctx (parentLinkOf ctx.kind ipk)
          (prefetch_related_instances ctx.pkAttname st
            (injectedRelData ctx ipk st rd).asList)
          (injectedRelData ctx ipk st rd).asList st).2.1.ents ∧
    (update_or_create_reverse_rel ctx ipk rd st).2.1.nextPk
      = (revLoop ctx (parentLinkOf ctx.kind ipk)
          (prefetch_related_instances ctx.pkAttname st
            (injectedRelData ctx ipk st rd).asList)
          (injectedRelData ctx ipk st rd).asList st).2.1.nextPk ∧
    (ctx.kind ≠ .m2m →
      (update_or_create_reverse_rel ctx ipk rd st).2.1.joins
        = (revLoop ctx (parentLinkOf ctx.kind ipk)
            (prefetch_related_instances ctx.pkAttname st
              (injectedRelData ctx ipk st rd).asList)
            (injectedRelData ctx ipk st rd).asList st).2.1.joins) ∧
    (ctx.kind = .m2m → ∀ j,
      j ∈ (update_or_create_reverse_rel ctx ipk rd st).2.1.joins ↔
        (j ∈ (revLoop ctx (parentLinkOf ctx.kind ipk)
            (prefetch_related_instances ctx.pkAttname st
              (injectedRelData ctx ipk st rd).asList)
            (injectedRelData ctx ipk st rd).asList st).2.1.joins ∨
          ∃ p ∈ (revLoop ctx (parentLinkOf ctx.kind ipk)
            (prefetch_related_instances ctx.pkAttname st
              (injectedRelData ctx ipk st rd).asList)
            (injectedRelData ctx ipk st rd).asList st).2.2.1,
            j = (ipk, p))) := by
  unfold update_or_create_reverse_rel
  dsimp only
  rcases hL : revLoop ctx (parentLinkOf ctx.kind ipk)
      (prefetch_related_instances ctx.pkAttname st
        (injectedRelData ctx ipk st rd).asList)
      (injectedRelData ctx ipk st rd).asList st with ⟨ds', st', pks', errs'⟩
  rw [hL] at herrs hlen
  dsimp only at herrs hlen ⊢
  rw [if_neg (by rw [herrs]; exact Bool.false_ne_true)]
  have hasl : (match injectedRelData ctx ipk st rd with
      | RelData.one _ => RelData.one (ds'.headD [])
      | RelData.many _ => RelData.many ds').asList = ds' := by
    rcases hrd1 : injectedRelData ctx ipk st rd with d0 | l0
    · rw [hrd1] at hlen
      dsimp only [RelData.asList] at hlen
      rcases ds' with _ | ⟨d1, drest⟩
      · simp at hlen
      · rcases drest with _ | ⟨d2, drest⟩
        · rfl
        · simp at hlen
    · rfl
  refine ⟨rfl, hasl, ?_, ?_, ?_, ?_⟩
  · rcases hk : ctx.kind <;> rfl
  · rcases hk : ctx.kind <;> rfl
  · intro hne
    rcases hk : ctx.kind
    · rfl
    · rfl
    · exact absurd hk hne
  · intro hm2m j
    rw [hm2m]
    dsimp only
    exact mem_foldl_addjoin pks' st'.joins ipk j

/-- Deletion phase for a single-owner (non many-to-many) relation on a
store without protected rows: no error, join table and counter kept,
and exactly the linked rows whose key is not among the current ids are
hard-deleted. -/
theorem delete_rel_fk_spec (ctx : RevCtx) (ipk : Nat) (rd : RelData)
    (st : Store) (hwf : st.wf) (hkind : ctx.kind ≠ .m2m)
    (hnoprot : ∀ e ∈ st.ents, e.prot = false) :
    (delete_reverse_rel ctx ipk rd st).2 = none ∧
    (delete_reverse_rel ctx ipk rd st).1.joins = st.joins ∧
    (delete_reverse_rel ctx ipk rd st).1.nextPk = st.nextPk ∧
    (∀ x, x ∈ (delete_reverse_rel ctx ipk rd st).1.ents ↔
      (x ∈ st.ents ∧ ¬(x.parent = some ipk ∧
        Nat.repr x.pk ∉ extract_related_pks ctx.pkAttname rd.asList))) := by
  have hlinked : linkedEnts ctx.kind st ipk
      = st.ents.filter (fun e => e.parent = some ipk) := by
    rcases hk : ctx.kind
    · rfl
    · rfl
    · exact absurd hk hkind
  have hptd : ∀ c : Nat, (∃ x ∈ st.ents, x.pk = c) →
      (c ∈ ((linkedEnts ctx.kind st ipk).filter
          (fun e => Nat.repr e.pk ∉ extract_related_pks ctx.pkAttname
            rd.asList)).map (fun e => e.pk) ↔
        ∀ x ∈ st.ents, x.pk = c →
          (x.parent = some ipk ∧
            Nat.repr x.pk ∉ extract_related_pks ctx.pkAttname rd.asList)) := by
    intro c ⟨w, hw, hwpk⟩
    rw [hlinked]
    constructor
    · intro hmem x hx hxpk
      rcases List.mem_map.mp hmem with ⟨y, hy, hypk⟩
      have hy2 := List.mem_filter.mp hy
      have hy3 := List.mem_filter.mp hy2.1
      have hxy : x = y := wf_unique st hwf x y hx hy3.1
        (by rw [hxpk, ← hypk])
      subst hxy
      refine ⟨by simpa using hy3.2, by simpa using hy2.2⟩
    · intro hall
      obtain ⟨hpar, hids⟩ := hall w hw hwpk
      refine List.mem_map.mpr ⟨w, ?_, hwpk⟩
      refine List.mem_filter.mpr ⟨List.mem_filter.mpr ⟨hw, ?_⟩, ?_⟩
      · simpa using hpar
      · simpa using hids
  have hdelete : ∀ pks : List Nat, deleteByPks st pks
      = ({ st with ents := st.ents.filter (fun e => e.pk ∉ pks) }, none) := by
    intro pks
    unfold deleteByPks
    dsimp only
    split
    · rfl
    · next hne =>
      refine absurd (List.filter_eq_nil_iff.mpr ?_) hne
      intro y hy
      simp [hnoprot y (List.mem_of_mem_filter hy)]
  have hdel : delete_reverse_rel ctx ipk rd st
      = (({ st with ents := st.ents.filter (fun e => e.pk ∉
          ((linkedEnts ctx.kind st ipk).filter
            (fun e => Nat.repr e.pk ∉ extract_related_pks ctx.pkAttname
              rd.asList)).map (fun e => e.pk)) }), none) := by
    unfold delete_reverse_rel
    dsimp only
    rcases hk : ctx.kind
    case m2m => exact absurd hk hkind
    all_goals
      dsimp only
      rw [hdelete]
      rfl
  rw [hdel]
  refine ⟨rfl, rfl, rfl, ?_⟩
  intro x
  rw [List.mem_filter]
  constructor
  · rintro ⟨hx, hnotin⟩
    refine ⟨hx, fun ⟨hpar, hids⟩ => ?_⟩
    have : x.pk ∈ ((linkedEnts ctx.kind st ipk).filter
        (fun e => Nat.repr e.pk ∉ extract_related_pks ctx.pkAttname
          rd.asList)).map (fun e => e.pk) :=
      (hptd x.pk ⟨x, hx, rfl⟩).mpr (fun y hy hypk => by
        rw [wf_unique st hwf y x hy hx hypk]
        exact ⟨hpar, hids⟩)
    rw [decide_eq_true_eq] at hnotin
    exact hnotin this
  · rintro ⟨hx, hsafe⟩
    refine ⟨hx, ?_⟩
    have hnot : ¬x.pk ∈ ((linkedEnts ctx.kind st ipk).filter
        (fun e => Nat.repr e.pk ∉ extract_related_pks ctx.pkAttname
          rd.asList)).map (fun e => e.pk) := by
      intro hmem
      exact hsafe ((hptd x.pk ⟨x, hx, rfl⟩).mp hmem x hx rfl)
    simpa using hnot

/-- Deletion phase for a many-to-many relation: no error, the rows
themselves survive untouched, and exactly the join rows of the parent
whose child key is not among the current ids are removed. -/
theorem delete_rel_m2m_spec (ctx : RevCtx) (ipk : Nat) (rd : RelData)
    (st : Store) (_hwf : st.wf) (hkind : ctx.kind = .m2m) :
    (delete_reverse_rel ctx ipk rd st).2 = none ∧
    (delete_reverse_rel ctx ipk rd st).1.ents = st.ents ∧
    (delete_reverse_rel ctx ipk rd st).1.nextPk = st.nextPk ∧
    (∀ j, j ∈ (delete_reverse_rel ctx ipk rd st).1.joins ↔
      (j ∈ st.joins ∧ ¬(j.1 = ipk ∧ hasPk st j.2 ∧
        Nat.repr j.2 ∉ extract_related_pks ctx.pkAttname rd.asList))) := by
  have hdel : delete_reverse_rel ctx ipk rd st
      = ({ st with joins := st.joins.filter (fun j =>
          ¬(j.1 = ipk ∧ j.2 ∈ ((linkedEnts ctx.kind st ipk).filter
            (fun e => Nat.repr e.pk ∉ extract_related_pks ctx.pkAttname
              rd.asList)).map (fun e => e.pk))) }, none) := by
    unfold delete_reverse_rel
    dsimp only
    rw [hkind]
  rw [hdel]
  refine ⟨rfl, rfl, rfl, ?_⟩
  intro j
  rw [List.mem_filter]
  have hiff : j ∈ st.joins → (j.2 ∈ ((linkedEnts ctx.kind st ipk).filter
      (fun e => Nat.repr e.pk ∉ extract_related_pks ctx.pkAttname
        rd.asList)).map (fun e => e.pk) ∧ j.1 = ipk ↔
      (j.1 = ipk ∧ hasPk st j.2 ∧
        Nat.repr j.2 ∉ extract_related_pks ctx.pkAttname rd.asList)) := by
    intro hj
    rw [hkind]
    constructor
    · rintro ⟨hmem, hj1⟩
      rcases List.mem_map.mp hmem with ⟨y, hy, hypk⟩
      have hy2 := List.mem_filter.mp hy
      have hy3 := List.mem_filter.mp hy2.1
      refine ⟨hj1, ⟨y, hy3.1, hypk⟩, ?_⟩
      rw [← hypk]
      simpa using hy2.2
    · rintro ⟨hj1, ⟨y, hy, hypk⟩, hids⟩
      refine ⟨List.mem_map.mpr ⟨y, ?_, hypk⟩, hj1⟩
      refine List.mem_filter.mpr ⟨List.mem_filter.mpr ⟨hy, ?_⟩, ?_⟩
      · show decide ((ipk, y.pk) ∈ st.joins) = true
        rw [decide_eq_true_eq, hypk]
        have : (j.1, j.2) = j := Prod.mk.eta
        rw [← hj1, this]
        exact hj
      · rw [hypk]
        simpa using hids
  constructor
  · rintro ⟨hj, hcond⟩
    refine ⟨hj, fun ⟨hj1, hpk, hids⟩ => ?_⟩
    have := (hiff hj).mpr ⟨hj1, hpk, hids⟩
    rw [decide_eq_true_eq] at hcond
    exact hcond ⟨this.2, this.1⟩
  · rintro ⟨hj, hsafe⟩
    refine ⟨hj, ?_⟩
    show decide _ = true
    rw [decide_eq_true_eq]
    rintro ⟨hj1, hmem⟩
    exact hsafe ((hiff hj).mp ⟨hmem, hj1⟩)

theorem parentLinkOf_ne_m2m (kind : RelKind) (ipk : Nat)
    (h : kind ≠ .m2m) : parentLinkOf kind ipk = some ipk := by
  rcases kind
  · rfl
  · rfl
  · exact absurd rfl h

theorem isLinked_ne_m2m (kind : RelKind) (st : Store) (ipk c : Nat)
    (h : kind ≠ .m2m) : isLinked kind st ipk c ↔ hasParent st c ipk := by
  rcases kind
  · exact Iff.rfl
  · exact Iff.rfl
  · exact absurd rfl h

theorem isLinked_m2m (st : Store) (ipk c : Nat) :
    isLinked .m2m st ipk c ↔
      ((∃ e ∈ st.ents, e.pk = c) ∧ (ipk, c) ∈ st.joins) :=
  Iff.rfl

/-- `NestedUpdateMixin.update` on one relation whose initial data is
present and whose create/update phase succeeded: the deletion phase
runs on the written-back data. -/
theorem updateRel_data_ok (ctx : RevCtx) (ipk : Nat) (rd0 : RelData)
    (st0 : Store)
    (hok : (update_or_create_reverse_rel ctx ipk rd0 st0).2.2 = none) :
    updateRel ctx ipk (.data rd0) st0
      = (.data (update_or_create_reverse_rel ctx ipk rd0 st0).1,
         (delete_reverse_rel ctx ipk
           (update_or_create_reverse_rel ctx ipk rd0 st0).1
           (update_or_create_reverse_rel ctx ipk rd0 st0).2.1).1,
         ((delete_reverse_rel ctx ipk
             (update_or_create_reverse_rel ctx ipk rd0 st0).1
             (update_or_create_reverse_rel ctx ipk rd0 st0).2.1).2).map
           UpdateErr.protectedMsg) := by
  unfold updateRel update_or_create_phase delete_phase
  dsimp only
  rcases hR : update_or_create_reverse_rel ctx ipk rd0 st0 with ⟨rd', st1, err⟩
  rw [hR] at hok
  dsimp only at hok
  subst hok
  dsimp only

theorem repr_mem_map (c : Nat) (l : List Nat) :
    Nat.repr c ∈ l.map Nat.repr ↔ c ∈ l := by
  rw [List.mem_map]
  constructor
  · rintro ⟨p, hp, hrepr⟩
    obtain rfl := natRepr_inj hrepr
    exact hp
  · intro h
    exact ⟨c, h, rfl⟩

/-- Claim C1: for an update through `NestedUpdateMixin` whose payload
carries a reverse relation, once `update_or_create_reverse_relations`
and `delete_reverse_relations_if_need` both complete, the persisted
children of the relation are exactly those described by the payload:
a child is linked to the parent afterwards iff its key is in the
payload's (written-back) key set; every previously linked child whose
key is absent is hard-deleted (detached but kept, for many-to-many);
and every validated payload item persists a child carrying its
submitted attributes. -/
theorem claim_C1 (ctx : RevCtx) (ipk : Nat) (rd0 : RelData) (st0 : Store)
    (hwf : st0.wf)
    (hnoprot : ∀ e ∈ st0.ents, e.prot = false)
    (hval : ∀ d : Dict, ∃ a, ctx.valf d = Except.ok a)
    (hpair : (injectedRelData ctx ipk st0 rd0).asList.Pairwise
      (fun d d' => ∀ e e',
        keyOf ctx (prefetch_related_instances ctx.pkAttname st0
          (injectedRelData ctx ipk st0 rd0).asList) d = some e →
        keyOf ctx (prefetch_related_instances ctx.pkAttname st0
          (injectedRelData ctx ipk st0 rd0).asList) d' = some e' →
        e.pk ≠ e'.pk)) :
    ∃ rd' : RelData,
      (updateRel ctx ipk (InitVal.data rd0) st0).1 = InitVal.data rd' ∧
      (updateRel ctx ipk (InitVal.data rd0) st0).2.2 = none ∧
      (∀ c, isLinked ctx.kind (updateRel ctx ipk (InitVal.data rd0) st0).2.1
          ipk c ↔
        Nat.repr c ∈ extract_related_pks ctx.pkAttname rd'.asList) ∧
      (∀ e ∈ st0.ents, isLinked ctx.kind st0 ipk e.pk →
        Nat.repr e.pk ∉ extract_related_pks ctx.pkAttname rd'.asList →
        (ctx.kind ≠ .m2m →
          ¬ hasPk (updateRel ctx ipk (InitVal.data rd0) st0).2.1 e.pk) ∧
        (ctx.kind = .m2m →
          hasPk (updateRel ctx ipk (InitVal.data rd0) st0).2.1 e.pk)) ∧
      (∀ d ∈ (injectedRelData ctx ipk st0 rd0).asList, ∀ a,
        ctx.valf d = Except.ok a →
        ∃ e' ∈ (updateRel ctx ipk (InitVal.data rd0) st0).2.1.ents,
          isLinked ctx.kind (updateRel ctx ipk (InitVal.data rd0) st0).2.1
            ipk e'.pk ∧
          (e'.attrs = a ∨ ∃ b, e'.attrs = dmerge b a) ∧
          Nat.repr e'.pk ∈ extract_related_pks ctx.pkAttname rd'.asList) := by
  obtain ⟨c1, c2, c3, c4, c5, c6, c7, c8, c9, c10, c11, c12, c13⟩ :=
    revLoop_ok_spec ctx (parentLinkOf ctx.kind ipk)
      (prefetch_related_instances ctx.pkAttname st0
        (injectedRelData ctx ipk st0 rd0).asList)
      (injectedRelData ctx ipk st0 rd0).asList st0 hwf
      (fun o e h => ⟨e, iget_prefetch_mem _ _ _ o e h, rfl⟩)
      (fun o e h => hnoprot e (iget_prefetch_mem _ _ _ o e h))
      (fun d _ => hval d) hpair
  have herrs : ((revLoop ctx (parentLinkOf ctx.kind ipk)
      (prefetch_related_instances ctx.pkAttname st0
        (injectedRelData ctx ipk st0 rd0).asList)
      (injectedRelData ctx ipk st0 rd0).asList st0).2.2.2).any
      (fun e => e ≠ []) = false := by
    rw [c1]
    exact any_replicate_nil _
  have hlen : ((revLoop ctx (parentLinkOf ctx.kind ipk)
      (prefetch_related_instances ctx.pkAttname st0
        (injectedRelData ctx ipk st0 rd0).asList)
      (injectedRelData ctx ipk st0 rd0).asList st0).1).length
      = (injectedRelData ctx ipk st0 rd0).asList.length := by
    rw [c3, List.length_zipWith, c2]
    exact Nat.min_self _
  obtain ⟨u1, u2, u3, u4, u5, u6⟩ :=
    update_rel_ok_spec ctx ipk rd0 st0 herrs hlen
  have hwf1 : (update_or_create_reverse_rel ctx ipk rd0 st0).2.1.wf := by
    unfold Store.wf
    rw [u3, u4]
    exact c4
  have hnoprot1 : ∀ e ∈ (update_or_create_reverse_rel ctx ipk rd0
      st0).2.1.ents, e.prot = false := by
    rw [u3]
    exact c13 hnoprot
  have hids : extract_related_pks ctx.pkAttname
      (update_or_create_reverse_rel ctx ipk rd0 st0).1.asList
      = ((revLoop ctx (parentLinkOf ctx.kind ipk)
          (prefetch_related_instances ctx.pkAttname st0
            (injectedRelData ctx ipk st0 rd0).asList)
          (injectedRelData ctx ipk st0 rd0).asList st0).2.2.1).map
        Nat.repr := by
    rw [u2, c3]
    exact extract_zipWith ctx.pkAttname _ _ c2 (fun p hp => (c8 p hp).1)
  have hU := updateRel_data_ok ctx ipk rd0 st0 u1
  rw [hU]
  dsimp only
  by_cases hm2m : ctx.kind = .m2m
  · obtain ⟨d1, d2, d3, d4⟩ := delete_rel_m2m_spec ctx ipk
      (update_or_create_reverse_rel ctx ipk rd0 st0).1
      (update_or_create_reverse_rel ctx ipk rd0 st0).2.1 hwf1 hm2m
    refine ⟨(update_or_create_reverse_rel ctx ipk rd0 st0).1, rfl,
      ?_, ?_, ?_, ?_⟩
    · rw [d1]
      rfl
    · intro c
      rw [hm2m, isLinked_m2m, hids, repr_mem_map]
      constructor
      · rintro ⟨⟨e, heD, hepk⟩, hj⟩
        obtain ⟨hj1, hsafe⟩ := (d4 (ipk, c)).mp hj
        by_contra hcn
        apply hsafe
        refine ⟨rfl, ?_, ?_⟩
        · rw [d2] at heD
          exact ⟨e, heD, hepk⟩
        · intro hmem
          rw [hids, repr_mem_map] at hmem
          exact hcn hmem
      · intro hcp
        obtain ⟨e, heL, hepk⟩ := (c8 c hcp).2
        have heR : e ∈ (update_or_create_reverse_rel ctx ipk rd0
            st0).2.1.ents := by
          rw [u3]
          exact heL
        refine ⟨⟨e, ?_, hepk⟩, ?_⟩
        · rw [d2]
          exact heR
        · apply (d4 (ipk, c)).mpr
          refine ⟨(u6 hm2m (ipk, c)).mpr (Or.inr ⟨c, hcp, rfl⟩), ?_⟩
          intro habs
          apply habs.2.2
          rw [hids, repr_mem_map]
          exact hcp
    · intro e he0 _hlink hnotin
      refine ⟨fun hne => absurd hm2m hne, fun _ => ?_⟩
      obtain ⟨x, hxL, hxpk⟩ := c7 e.pk ⟨e, he0, rfl⟩
      refine ⟨x, ?_, hxpk⟩
      rw [d2, u3]
      exact hxL
    · intro d hd a ha
      obtain ⟨p, hp, e', he'L, he'pk, he'attrs, _⟩ := c12 d hd a ha
      have he'R : e' ∈ (update_or_create_reverse_rel ctx ipk rd0
          st0).2.1.ents := by
        rw [u3]
        exact he'L
      have he'D : e' ∈ (delete_reverse_rel ctx ipk
          (update_or_create_reverse_rel ctx ipk rd0 st0).1
          (update_or_create_reverse_rel ctx ipk rd0 st0).2.1).1.ents := by
        rw [d2]
        exact he'R
      have hin : Nat.repr e'.pk ∈ extract_related_pks ctx.pkAttname
          (update_or_create_reverse_rel ctx ipk rd0 st0).1.asList := by
        rw [hids, he'pk, repr_mem_map]
        exact hp
      refine ⟨e', he'D, ?_, he'attrs, hin⟩
      rw [hm2m, isLinked_m2m]
      refine ⟨⟨e', he'D, rfl⟩, ?_⟩
      apply (d4 (ipk, e'.pk)).mpr
      refine ⟨(u6 hm2m (ipk, e'.pk)).mpr
        (Or.inr ⟨e'.pk, by rw [he'pk]; exact hp, rfl⟩), ?_⟩
      intro habs
      exact habs.2.2 hin
  · obtain ⟨d1, d2j, d3, d4⟩ := delete_rel_fk_spec ctx ipk
      (update_or_create_reverse_rel ctx ipk rd0 st0).1
      (update_or_create_reverse_rel ctx ipk rd0 st0).2.1 hwf1 hm2m hnoprot1
    have hplk : parentLinkOf ctx.kind ipk = some ipk :=
      parentLinkOf_ne_m2m ctx.kind ipk hm2m
    refine ⟨(update_or_create_reverse_rel ctx ipk rd0 st0).1, rfl,
      ?_, ?_, ?_, ?_⟩
    · rw [d1]
      rfl
    · intro c
      rw [isLinked_ne_m2m ctx.kind _ ipk c hm2m, hids, repr_mem_map]
      constructor
      · rintro ⟨e, heD, hepk, hepar⟩
        obtain ⟨he1, hsafe⟩ := (d4 e).mp heD
        by_contra hcn
        apply hsafe
        refine ⟨hepar, ?_⟩
        rw [hids, hepk, repr_mem_map]
        exact hcn
      · intro hcp
        obtain ⟨e, heL, hepk, hepar⟩ := (c9 ipk hplk c).mpr (Or.inl hcp)
        have heR : e ∈ (update_or_create_reverse_rel ctx ipk rd0
            st0).2.1.ents := by
          rw [u3]
          exact heL
        refine ⟨e, (d4 e).mpr ⟨heR, ?_⟩, hepk, hepar⟩
        intro habs
        apply habs.2
        rw [hids, hepk, repr_mem_map]
        exact hcp
    · intro e he0 hlink hnotin
      refine ⟨fun _ => ?_, fun hk => absurd hk hm2m⟩
      rintro ⟨x, hxD, hxpk⟩
      obtain ⟨hx1, hsafe⟩ := (d4 x).mp hxD
      obtain ⟨e0, he0m, he0pk, he0par⟩ :=
        (isLinked_ne_m2m ctx.kind st0 ipk e.pk hm2m).mp hlink
      have he0e : e0 = e := wf_unique st0 hwf e0 e he0m he0 he0pk
      have hmiss : ∀ d ∈ (injectedRelData ctx ipk st0 rd0).asList, ∀ e',
          keyOf ctx (prefetch_related_instances ctx.pkAttname st0
            (injectedRelData ctx ipk st0 rd0).asList) d = some e' →
          e'.pk ≠ e.pk := by
        intro d hd e' hk heq
        have hmem := c10 d hd e' hk
        rw [heq] at hmem
        apply hnotin
        rw [hids, repr_mem_map]
        exact hmem
      have heL := c11 e he0 hmiss
      have heR : e ∈ (update_or_create_reverse_rel ctx ipk rd0
          st0).2.1.ents := by
        rw [u3]
        exact heL
      have hxe : x = e :=
        wf_unique (update_or_create_reverse_rel ctx ipk rd0 st0).2.1
          hwf1 x e hx1 heR hxpk
      subst hxe
      exact hsafe ⟨he0e ▸ he0par, hnotin⟩
    · intro d hd a ha
      obtain ⟨p, hp, e', he'L, he'pk, he'attrs, he'par⟩ := c12 d hd a ha
      have he'R : e' ∈ (update_or_create_reverse_rel ctx ipk rd0
          st0).2.1.ents := by
        rw [u3]
        exact he'L
      have hin : Nat.repr e'.pk ∈ extract_related_pks ctx.pkAttname
          (update_or_create_reverse_rel ctx ipk rd0 st0).1.asList := by
        rw [hids, he'pk, repr_mem_map]
        exact hp
      have he'D : e' ∈ (delete_reverse_rel ctx ipk
          (update_or_create_reverse_rel ctx ipk rd0 st0).1
          (update_or_create_reverse_rel ctx ipk rd0 st0).2.1).1.ents :=
        (d4 e').mpr ⟨he'R, fun h => h.2 hin⟩
      refine ⟨e', he'D, ?_, he'attrs, hin⟩
      rw [isLinked_ne_m2m ctx.kind _ ipk e'.pk hm2m]
      exact ⟨e', he'D, rfl, he'par ipk hplk⟩

/-- A concrete reverse-relation context: a foreign-key collection field
named `items` on a child model whose pk attribute is `id`, with a child
serializer that accepts every payload unchanged. -/
def c1ctx : RevCtx := ⟨"items", RelKind.fk, "id", fun d => Except.ok d⟩

/-- A concrete store holding only the parent row `pk = 1`. -/
def c1st : Store := ⟨[⟨1, [], none, false⟩], [], 2⟩

/-- A concrete payload: one new child (no pk) named `a`. -/
def c1rd : RelData := RelData.many [[("name", Val.str "a")]]

/-- Claim C5: when the deletion phase targets a protected linked child,
the store rejects the deletion; `delete_reverse_relations_if_need`
reports the user-facing `Cannot delete {instances} because protected
relation exists` message naming the blocked (all-protected) entities
instead of the raw `ProtectedError`, and the store — hence every
protected child — is left untouched. -/
theorem claim_C5 (ctx : RevCtx) (ipk : Nat) (rd : RelData) (st : Store)
    (hkind : ctx.kind ≠ .m2m) (e0 : Entity)
    (he0 : e0 ∈ st.ents) (hprot : e0.prot = true)
    (hpar : e0.parent = some ipk)
    (hnotin : Nat.repr e0.pk ∉ extract_related_pks ctx.pkAttname
      rd.asList) :
    ∃ blocked : List Entity,
      e0 ∈ blocked ∧
      (∀ b ∈ blocked, b.prot = true) ∧
      delete_reverse_rel ctx ipk rd st
        = (st, some (cannot_delete_protected_msg blocked)) := by
  have hlinked : linkedEnts ctx.kind st ipk
      = st.ents.filter (fun e => e.parent = some ipk) := by
    rcases hk : ctx.kind
    · rfl
    · rfl
    · exact absurd hk hkind
  have he0link : e0 ∈ (linkedEnts ctx.kind st ipk).filter
      (fun e => Nat.repr e.pk ∉ extract_related_pks ctx.pkAttname
        rd.asList) := by
    rw [hlinked]
    refine List.mem_filter.mpr ⟨List.mem_filter.mpr ⟨he0, ?_⟩, ?_⟩
    · simpa using hpar
    · simpa using hnotin
  have hpkmem : e0.pk ∈ ((linkedEnts ctx.kind st ipk).filter
      (fun e => Nat.repr e.pk ∉ extract_related_pks ctx.pkAttname
        rd.asList)).map (fun e => e.pk) :=
    List.mem_map.mpr ⟨e0, he0link, rfl⟩
  have he0t : e0 ∈ (st.ents.filter (fun e => e.pk ∈
      ((linkedEnts ctx.kind st ipk).filter
        (fun e => Nat.repr e.pk ∉ extract_related_pks ctx.pkAttname
          rd.asList)).map (fun e => e.pk))).filter (fun e => e.prot) := by
    refine List.mem_filter.mpr ⟨List.mem_filter.mpr ⟨he0, ?_⟩, hprot⟩
    simpa using hpkmem
  have hne : (st.ents.filter (fun e => e.pk ∈
      ((linkedEnts ctx.kind st ipk).filter
        (fun e => Nat.repr e.pk ∉ extract_related_pks ctx.pkAttname
          rd.asList)).map (fun e => e.pk))).filter (fun e => e.prot)
      ≠ [] := List.ne_nil_of_mem he0t
  have hDB : deleteByPks st (((linkedEnts ctx.kind st ipk).filter
      (fun e => Nat.repr e.pk ∉ extract_related_pks ctx.pkAttname
        rd.asList)).map (fun e => e.pk))
      = (st, some ((st.ents.filter (fun e => e.pk ∈
          ((linkedEnts ctx.kind st ipk).filter
            (fun e => Nat.repr e.pk ∉ extract_related_pks ctx.pkAttname
              rd.asList)).map (fun e => e.pk))).filter
            (fun e => e.prot))) := by
    unfold deleteByPks
    dsimp only
    rw [if_neg hne]
  have hdel : delete_reverse_rel ctx ipk rd st
      = (st, some (cannot_delete_protected_msg
          ((st.ents.filter (fun e => e.pk ∈
            ((linkedEnts ctx.kind st ipk).filter
              (fun e => Nat.repr e.pk ∉ extract_related_pks ctx.pkAttname
                rd.asList)).map (fun e => e.pk))).filter
            (fun e => e.prot)))) := by
    unfold delete_reverse_rel
    dsimp only
    rcases hk : ctx.kind
    case m2m => exact absurd hk hkind
    all_goals
      dsimp only
      rw [hk] at hDB
      rw [hDB]
      rfl
  exact ⟨_, he0t, fun b hb => (List.mem_filter.mp hb).2, hdel⟩

/-- A concrete store: parent row `pk = 1` and a protected child
`pk = 2` linked to it. -/
def c5st : Store := ⟨[⟨1, [], none, false⟩, ⟨2, [], some 1, true⟩], [], 3⟩

theorem c5_aux_kind : c1ctx.kind ≠ RelKind.m2m := by decide

theorem c5_aux_mem : (⟨2, [], some 1, true⟩ : Entity) ∈ c5st.ents := by
  decide

theorem c5_aux_notin : Nat.repr (2 : Nat) ∉ extract_related_pks
    c1ctx.pkAttname (RelData.many []).asList := by
  decide

theorem claim_C5_witness :
    ∃ blocked : List Entity,
      (⟨2, [], some 1, true⟩ : Entity) ∈ blocked ∧
      (∀ b ∈ blocked, b.prot = true) ∧
      delete_reverse_rel c1ctx 1 (RelData.many []) c5st
        = (c5st, some (cannot_delete_protected_msg blocked)) :=
  claim_C5 c1ctx 1 (RelData.many []) c5st c5_aux_kind
    ⟨2, [], some 1, true⟩ c5_aux_mem rfl rfl c5_aux_notin

/-- Claim C3, amended: a relation field absent from the initial payload
is skipped by the create/update phase — a store no-op with no error —
but the deletion phase reads `self.get_initial()[field_name]` without a
guard, so the same absent field raises `KeyError` there; the combined
update path leaves the store unchanged yet errors instead of skipping. -/
theorem claim_C3 (ctx : RevCtx) (ipk : Nat) (st : Store) :
    update_or_create_phase ctx ipk InitVal.absent st
      = (InitVal.absent, st, none) ∧
    delete_phase ctx ipk InitVal.absent st
      = (st, some UpdateErr.keyError) ∧
    updateRel ctx ipk InitVal.absent st
      = (InitVal.absent, st, some UpdateErr.keyError) :=
  ⟨rfl, rfl, rfl⟩

/-- Counterexample to claim C3 as stated: on a concrete relation and
store, the deletion phase of an absent field is not a skip — it raises
`KeyError`, and so does the full update path. -/
theorem claim_C3_counterexample :
    delete_phase c1ctx 1 InitVal.absent c1st
      = (c1st, some UpdateErr.keyError) ∧
    updateRel c1ctx 1 InitVal.absent c1st
      = (InitVal.absent, c1st, some UpdateErr.keyError) :=
  ⟨rfl, rfl⟩

/-- Error accumulation of the per-item loop on any mix of valid and
invalid items: the per-item error list is positionally aligned with the
input (empty dict on success, the item's error detail on failure), a pk
is saved for exactly the valid items, and every item is written back. -/
theorem revLoop_errs_spec (ctx : RevCtx) (pl : Option Nat)
    (insts : List (String × Entity)) (ds : List Dict) (st : Store) :
    (revLoop ctx pl insts ds st).2.2.2
      = ds.map (fun d => match ctx.valf d with
          | .ok _ => ([] : Dict)
          | .error detail => detail) ∧
    (revLoop ctx pl insts ds st).2.2.1.length
      = (ds.filter (fun d => match ctx.valf d with
          | .ok _ => true
          | .error _ => false)).length ∧
    (revLoop ctx pl insts ds st).1.length = ds.length := by
  induction ds generalizing st with
  | nil => exact ⟨rfl, rfl, rfl⟩
  | cons d rest ih =>
    cases hv : ctx.valf d with
    | ok a =>
      rw [revLoop_cons_ok ctx pl insts d rest st a hv]
      obtain ⟨ih1, ih2, ih3⟩ :=
        ih (childSave st (keyOf ctx insts d) a pl).1
      refine ⟨?_, ?_, ?_⟩
      · dsimp only
        simp only [List.map_cons, hv]
        rw [ih1]
      · dsimp only
        simp only [List.filter_cons, hv]
        rw [if_pos trivial]
        rw [List.length_cons, List.length_cons, ih2]
      · dsimp only
        rw [List.length_cons, ih3]
        rfl
    | error detail =>
      rw [revLoop_cons_err ctx pl insts d rest st detail hv]
      obtain ⟨ih1, ih2, ih3⟩ := ih st
      refine ⟨?_, ?_, ?_⟩
      · dsimp only
        simp only [List.map_cons, hv]
        rw [ih1]
      · dsimp only
        simp only [List.filter_cons, hv]
        rw [if_neg (by simp)]
        rw [ih2]
      · dsimp only
        rw [List.length_cons, ih3]
        rfl

/-- Claim C4: when at least one child of the relation is invalid, the
loop still validates and attempts to persist every child (a pk is saved
for exactly the valid items, every item is processed), and the relation
then raises a validation error keyed by its field name: a single error
object for a reversed one-to-one, otherwise a positional list aligned
with input order holding each failed item's detail and an empty object
per succeeded item. -/
theorem claim_C4 (ctx : RevCtx) (ipk : Nat) (rd0 : RelData) (st0 : Store)
    (hbad : ∃ d ∈ (injectedRelData ctx ipk st0 rd0).asList,
      ∃ detail, ctx.valf d = Except.error detail ∧ detail ≠ []) :
    (revLoop ctx (parentLinkOf ctx.kind ipk)
        (prefetch_related_instances ctx.pkAttname st0
          (injectedRelData ctx ipk st0 rd0).asList)
        (injectedRelData ctx ipk st0 rd0).asList st0).2.2.2
      = (injectedRelData ctx ipk st0 rd0).asList.map
          (fun d => match ctx.valf d with
            | .ok _ => ([] : Dict)
            | .error detail => detail) ∧
    (revLoop ctx (parentLinkOf ctx.kind ipk)
        (prefetch_related_instances ctx.pkAttname st0
          (injectedRelData ctx ipk st0 rd0).asList)
        (injectedRelData ctx ipk st0 rd0).asList st0).2.2.1.length
      = ((injectedRelData ctx ipk st0 rd0).asList.filter
          (fun d => match ctx.valf d with
            | .ok _ => true
            | .error _ => false)).length ∧
    (ctx.kind = .o2o →
      (update_or_create_reverse_rel ctx ipk rd0 st0).2.2
        = some (RevError.single ctx.field_name
            ((revLoop ctx (parentLinkOf ctx.kind ipk)
              (prefetch_related_instances ctx.pkAttname st0
                (injectedRelData ctx ipk st0 rd0).asList)
              (injectedRelData ctx ipk st0 rd0).asList st0).2.2.2.headD
              []))) ∧
    (ctx.kind ≠ .o2o →
      (update_or_create_reverse_rel ctx ipk rd0 st0).2.2
        = some (RevError.list ctx.field_name
            (revLoop ctx (parentLinkOf ctx.kind ipk)
              (prefetch_related_instances ctx.pkAttname st0
                (injectedRelData ctx ipk st0 rd0).asList)
              (injectedRelData ctx ipk st0 rd0).asList st0).2.2.2)) := by
  obtain ⟨e1, e2, e3⟩ := revLoop_errs_spec ctx (parentLinkOf ctx.kind ipk)
    (prefetch_related_instances ctx.pkAttname st0
      (injectedRelData ctx ipk st0 rd0).asList)
    (injectedRelData ctx ipk st0 rd0).asList st0
  have hany : ((revLoop ctx (parentLinkOf ctx.kind ipk)
      (prefetch_related_instances ctx.pkAttname st0
        (injectedRelData ctx ipk st0 rd0).asList)
      (injectedRelData ctx ipk st0 rd0).asList st0).2.2.2).any
      (fun e => e ≠ []) = true := by
    obtain ⟨d, hd, detail, hvd, hne⟩ := hbad
    rw [e1, List.any_eq_true]
    refine ⟨detail, ?_, ?_⟩
    · rw [List.mem_map]
      refine ⟨d, hd, ?_⟩
      rw [hvd]
    · exact decide_eq_true hne
  refine ⟨e1, e2, ?_, ?_⟩
  · intro hk
    unfold update_or_create_reverse_rel
    dsimp only
    rcases hL : revLoop ctx (parentLinkOf ctx.kind ipk)
        (prefetch_related_instances ctx.pkAttname st0
          (injectedRelData ctx ipk st0 rd0).asList)
        (injectedRelData ctx ipk st0 rd0).asList st0
      with ⟨ds', st', pks', errs'⟩
    rw [hL] at hany
    dsimp only at hany
    rw [if_pos hany]
    dsimp only
    rw [hk]
  · intro hk
    unfold update_or_create_reverse_rel
    dsimp only
    rcases hL : revLoop ctx (parentLinkOf ctx.kind ipk)
        (prefetch_related_instances ctx.pkAttname st0
          (injectedRelData ctx ipk st0 rd0).asList)
        (injectedRelData ctx ipk st0 rd0).asList st0
      with ⟨ds', st', pks', errs'⟩
    rw [hL] at hany
    dsimp only at hany
    rw [if_pos hany]
    dsimp only
    rcases hkk : ctx.kind
    · rfl
    · exact absurd hkk hk
    · rfl

/-- A concrete context whose child serializer rejects the empty payload
with a `required` detail and accepts anything else unchanged. -/
def c4ctx : RevCtx :=
  ⟨"items", RelKind.fk, "id", fun d =>
    if d = [] then Except.error [("name", Val.str "required")]
    else Except.ok d⟩

/-- A concrete payload with one valid and one invalid child. -/
def c4rd : RelData := RelData.many [[("name", Val.str "a")], []]

theorem claim_C4_witness :
    (revLoop c4ctx (parentLinkOf c4ctx.kind 1)
        (prefetch_related_instances c4ctx.pkAttname c1st
          (injectedRelData c4ctx 1 c1st c4rd).asList)
        (injectedRelData c4ctx 1 c1st c4rd).asList c1st).2.2.2
      = (injectedRelData c4ctx 1 c1st c4rd).asList.map
          (fun d => match c4ctx.valf d with
            | .ok _ => ([] : Dict)
            | .error detail => detail) ∧
    (revLoop c4ctx (parentLinkOf c4ctx.kind 1)
        (prefetch_related_instances c4ctx.pkAttname c1st
          (injectedRelData c4ctx 1 c1st c4rd).asList)
        (injectedRelData c4ctx 1 c1st c4rd).asList c1st).2.2.1.length
      = ((injectedRelData c4ctx 1 c1st c4rd).asList.filter
          (fun d => match c4ctx.valf d with
            | .ok _ => true
            | .error _ => false)).length ∧
    (c4ctx.kind = .o2o →
      (update_or_create_reverse_rel c4ctx 1 c4rd c1st).2.2
        = some (RevError.single c4ctx.field_name
            ((revLoop c4ctx (parentLinkOf c4ctx.kind 1)
              (prefetch_related_instances c4ctx.pkAttname c1st
                (injectedRelData c4ctx 1 c1st c4rd).asList)
              (injectedRelData c4ctx 1 c1st c4rd).asList c1st).2.2.2.headD
              []))) ∧
    (c4ctx.kind ≠ .o2o →
      (update_or_create_reverse_rel c4ctx 1 c4rd c1st).2.2
        = some (RevError.list c4ctx.field_name
            (revLoop c4ctx (parentLinkOf c4ctx.kind 1)
              (prefetch_related_instances c4ctx.pkAttname c1st
                (injectedRelData c4ctx 1 c1st c4rd).asList)
              (injectedRelData c4ctx 1 c1st c4rd).asList c1st).2.2.2)) :=
  claim_C4 c4ctx 1 c4rd c1st
    (by
      refine ⟨([] : Dict), ?_, [("name", Val.str "required")], rfl, ?_⟩
      · show ([] : Dict) ∈ (injectedRelData c4ctx 1 c1st c4rd).asList
        exact List.mem_cons_of_mem _ (List.mem_cons_self _ _)
      · decide)

/-- Claim C9: the create/update phase writes each successfully saved
child's primary key back into that child's entry of the shared initial
data (`data['pk'] = related_instance.pk`), so the deletion phase's key
set — recomputed from the same initial data — contains the key of every
child saved in this pass, and those children survive the deletion phase
still linked to the parent. -/
theorem claim_C9 (ctx : RevCtx) (ipk : Nat) (rd0 : RelData) (st0 : Store)
    (hwf : st0.wf)
    (hnoprot : ∀ e ∈ st0.ents, e.prot = false)
    (hval : ∀ d : Dict, ∃ a, ctx.valf d = Except.ok a)
    (hpair : (injectedRelData ctx ipk st0 rd0).asList.Pairwise
      (fun d d' => ∀ e e',
        keyOf ctx (prefetch_related_instances ctx.pkAttname st0
          (injectedRelData ctx ipk st0 rd0).asList) d = some e →
        keyOf ctx (prefetch_related_instances ctx.pkAttname st0
          (injectedRelData ctx ipk st0 rd0).asList) d' = some e' →
        e.pk ≠ e'.pk)) :
    ∃ pks : List Nat,
      (update_or_create_reverse_rel ctx ipk rd0 st0).1.asList
        = List.zipWith (fun d p => dset d "pk" (Val.int (Int.ofNat p)))
            (injectedRelData ctx ipk st0 rd0).asList pks ∧
      (∀ p ∈ pks, Nat.repr p ∈ extract_related_pks ctx.pkAttname
          (update_or_create_reverse_rel ctx ipk rd0 st0).1.asList) ∧
      (∀ p ∈ pks,
        hasPk (updateRel ctx ipk (InitVal.data rd0) st0).2.1 p ∧
        isLinked ctx.kind (updateRel ctx ipk (InitVal.data rd0) st0).2.1
          ipk p) := by
  obtain ⟨c1, c2, c3, c4, c5, c6, c7, c8, c9, c10, c11, c12, c13⟩ :=
    revLoop_ok_spec ctx (parentLinkOf ctx.kind ipk)
      (prefetch_related_instances ctx.pkAttname st0
        (injectedRelData ctx ipk st0 rd0).asList)
      (injectedRelData ctx ipk st0 rd0).asList st0 hwf
      (fun o e h => ⟨e, iget_prefetch_mem _ _ _ o e h, rfl⟩)
      (fun o e h => hnoprot e (iget_prefetch_mem _ _ _ o e h))
      (fun d _ => hval d) hpair
  have herrs : ((revLoop ctx (parentLinkOf ctx.kind ipk)
      (prefetch_related_instances ctx.pkAttname st0
        (injectedRelData ctx ipk st0 rd0).asList)
      (injectedRelData ctx ipk st0 rd0).asList st0).2.2.2).any
      (fun e => e ≠ []) = false := by
    rw [c1]
    exact any_replicate_nil _
  have hlen : ((revLoop ctx (parentLinkOf ctx.kind ipk)
      (prefetch_related_instances ctx.pkAttname st0
        (injectedRelData ctx ipk st0 rd0).asList)
      (injectedRelData ctx ipk st0 rd0).asList st0).1).length
      = (injectedRelData ctx ipk st0 rd0).asList.length := by
    rw [c3, List.length_zipWith, c2]
    exact Nat.min_self _
  obtain ⟨u1, u2, u3, u4, u5, u6⟩ :=
    update_rel_ok_spec ctx ipk rd0 st0 herrs hlen
  have hwf1 : (update_or_create_reverse_rel ctx ipk rd0 st0).2.1.wf := by
    unfold Store.wf
    rw [u3, u4]
    exact c4
  have hnoprot1 : ∀ e ∈ (update_or_create_reverse_rel ctx ipk rd0
      st0).2.1.ents, e.prot = false := by
    rw [u3]
    exact c13 hnoprot
  have hids : extract_related_pks ctx.pkAttname
      (update_or_create_reverse_rel ctx ipk rd0 st0).1.asList
      = ((revLoop ctx (parentLinkOf ctx.kind ipk)
          (prefetch_related_instances ctx.pkAttname st0
            (injectedRelData ctx ipk st0 rd0).asList)
          (injectedRelData ctx ipk st0 rd0).asList st0).2.2.1).map
        Nat.repr := by
    rw [u2, c3]
    exact extract_zipWith ctx.pkAttname _ _ c2 (fun p hp => (c8 p hp).1)
  have hU := updateRel_data_ok ctx ipk rd0 st0 u1
  refine ⟨(revLoop ctx (parentLinkOf ctx.kind ipk)
      (prefetch_related_instances ctx.pkAttname st0
        (injectedRelData ctx ipk st0 rd0).asList)
      (injectedRelData ctx ipk st0 rd0).asList st0).2.2.1, ?_, ?_, ?_⟩
  · rw [u2]
    exact c3
  · intro p hp
    rw [hids, repr_mem_map]
    exact hp
  · rw [hU]
    dsimp only
    intro p hp
    have hin : Nat.repr p ∈ extract_related_pks ctx.pkAttname
        (update_or_create_reverse_rel ctx ipk rd0 st0).1.asList := by
      rw [hids, repr_mem_map]
      exact hp
    by_cases hm2m : ctx.kind = .m2m
    · obtain ⟨d1, d2, d3, d4⟩ := delete_rel_m2m_spec ctx ipk
        (update_or_create_reverse_rel ctx ipk rd0 st0).1
        (update_or_create_reverse_rel ctx ipk rd0 st0).2.1 hwf1 hm2m
      obtain ⟨e, heL, hepk⟩ := (c8 p hp).2
      have heD : e ∈ (delete_reverse_rel ctx ipk
          (update_or_create_reverse_rel ctx ipk rd0 st0).1
          (update_or_create_reverse_rel ctx ipk rd0 st0).2.1).1.ents := by
        rw [d2, u3]
        exact heL
      have hlink : isLinked ctx.kind (delete_reverse_rel ctx ipk
          (update_or_create_reverse_rel ctx ipk rd0 st0).1
          (update_or_create_reverse_rel ctx ipk rd0 st0).2.1).1 ipk p := by
        rw [hm2m, isLinked_m2m]
        refine ⟨⟨e, heD, hepk⟩, ?_⟩
        apply (d4 (ipk, p)).mpr
        refine ⟨(u6 hm2m (ipk, p)).mpr (Or.inr ⟨p, hp, rfl⟩), ?_⟩
        intro habs
        exact habs.2.2 hin
      exact ⟨⟨e, heD, hepk⟩, hlink⟩
    · obtain ⟨d1, d2j, d3, d4⟩ := delete_rel_fk_spec ctx ipk
        (update_or_create_reverse_rel ctx ipk rd0 st0).1
        (update_or_create_reverse_rel ctx ipk rd0 st0).2.1 hwf1 hm2m
        hnoprot1
      have hplk : parentLinkOf ctx.kind ipk = some ipk :=
        parentLinkOf_ne_m2m ctx.kind ipk hm2m
      obtain ⟨e, heL, hepk, hepar⟩ := (c9 ipk hplk p).mpr (Or.inl hp)
      have heR : e ∈ (update_or_create_reverse_rel ctx ipk rd0
          st0).2.1.ents := by
        rw [u3]
        exact heL
      have heD : e ∈ (delete_reverse_rel ctx ipk
          (update_or_create_reverse_rel ctx ipk rd0 st0).1
          (update_or_create_reverse_rel ctx ipk rd0 st0).2.1).1.ents := by
        refine (d4 e).mpr ⟨heR, ?_⟩
        intro habs
        apply habs.2
        rw [hepk]
        exact hin
      refine ⟨⟨e, heD, hepk⟩, ?_⟩
      rw [isLinked_ne_m2m ctx.kind _ ipk p hm2m]
      exact ⟨e, heD, hepk, hepar⟩

theorem claim_C9_witness :
    ∃ pks : List Nat,
      (update_or_create_reverse_rel
          ⟨"tags", RelKind.m2m, "id", fun d => Except.ok d⟩ 1
          (RelData.many [[("name", Val.str "t")]])
          ⟨[⟨1, [], none, false⟩], [], 2⟩).1.asList
        = List.zipWith (fun d p => dset d "pk" (Val.int (Int.ofNat p)))
            (injectedRelData
              ⟨"tags", RelKind.m2m, "id", fun d => Except.ok d⟩ 1
              ⟨[⟨1, [], none, false⟩], [], 2⟩
              (RelData.many [[("name", Val.str "t")]])).asList pks ∧
      (∀ p ∈ pks, Nat.repr p ∈ extract_related_pks "id"
          (update_or_create_reverse_rel
            ⟨"tags", RelKind.m2m, "id", fun d => Except.ok d⟩ 1
            (RelData.many [[("name", Val.str "t")]])
            ⟨[⟨1, [], none, false⟩], [], 2⟩).1.asList) ∧
      (∀ p ∈ pks,
        hasPk (updateRel
          ⟨"tags", RelKind.m2m, "id", fun d => Except.ok d⟩ 1
          (InitVal.data (RelData.many [[("name", Val.str "t")]]))
          ⟨[⟨1, [], none, false⟩], [], 2⟩).2.1 p ∧
        isLinked RelKind.m2m (updateRel
          ⟨"tags", RelKind.m2m, "id", fun d => Except.ok d⟩ 1
          (InitVal.data (RelData.many [[("name", Val.str "t")]]))
          ⟨[⟨1, [], none, false⟩], [], 2⟩).2.1 1 p) :=
  claim_C9 ⟨"tags", RelKind.m2m, "id", fun d => Except.ok d⟩ 1
    (RelData.many [[("name", Val.str "t")]])
    ⟨[⟨1, [], none, false⟩], [], 2⟩
    ⟨List.Pairwise.cons (fun b hb => absurd hb (List.not_mem_nil b))
      List.Pairwise.nil, by decide, by decide⟩
    (by decide)
    (fun d => ⟨d, rfl⟩)
    (List.Pairwise.cons (fun d hd => absurd hd (List.not_mem_nil d))
      List.Pairwise.nil)

theorem claim_C1_witness :
    ∃ rd' : RelData,
      (updateRel c1ctx 1 (InitVal.data c1rd) c1st).1 = InitVal.data rd' ∧
      (updateRel c1ctx 1 (InitVal.data c1rd) c1st).2.2 = none ∧
      (∀ c, isLinked c1ctx.kind
          (updateRel c1ctx 1 (InitVal.data c1rd) c1st).2.1 1 c ↔
        Nat.repr c ∈ extract_related_pks c1ctx.pkAttname rd'.asList) ∧
      (∀ e ∈ c1st.ents, isLinked c1ctx.kind c1st 1 e.pk →
        Nat.repr e.pk ∉ extract_related_pks c1ctx.pkAttname rd'.asList →
        (c1ctx.kind ≠ .m2m →
          ¬ hasPk (updateRel c1ctx 1 (InitVal.data c1rd) c1st).2.1 e.pk) ∧
        (c1ctx.kind = .m2m →
          hasPk (updateRel c1ctx 1 (InitVal.data c1rd) c1st).2.1 e.pk)) ∧
      (∀ d ∈ (injectedRelData c1ctx 1 c1st c1rd).asList, ∀ a,
        c1ctx.valf d = Except.ok a →
        ∃ e' ∈ (updateRel c1ctx 1 (InitVal.data c1rd) c1st).2.1.ents,
          isLinked c1ctx.kind
            (updateRel c1ctx 1 (InitVal.data c1rd) c1st).2.1 1 e'.pk ∧
          (e'.attrs = a ∨ ∃ b, e'.attrs = dmerge b a) ∧
          Nat.repr e'.pk ∈ extract_related_pks c1ctx.pkAttname rd'.asList) :=
  claim_C1 c1ctx 1 c1rd c1st
    ⟨List.Pairwise.cons (fun b hb => absurd hb (List.not_mem_nil b))
      List.Pairwise.nil, by decide, by decide⟩
    (by decide)
    (fun d => ⟨d, rfl⟩)
    (List.Pairwise.cons (fun d hd => absurd hd (List.not_mem_nil d))
      List.Pairwise.nil)

end DrfWritableNested
